import Mathlib

/-!
Verification development for the goethe-bot repository.

Part 1 embeds the availability poller of src/api/exam-api-finder.ts
(class ExamApiMonitor): its mutable session state, the prioritisation of
matching exam records, and the body of the setInterval tick installed by
startPolling.  Part 2 embeds the display-pool allocator and the
bounded-concurrency account orchestrator of src/cluster/runCluster.ts
(the individual-browser variant: allocateDisplay, releaseDisplay,
processAccount, runAllAccounts, stopSchedule).

JavaScript runs the bodies between await points atomically on a single
event loop, so each model step below corresponds to one such synchronous
block; concurrency is modelled by letting an arbitrary list of scheduler
choices interleave the steps.
-/

/-- One exam record returned by the remote endpoint (interface ExamData).
`bookFromStamp` is kept in the already-decomposed form the tick extracts
from it via new Date(...).toISOString() / .toTimeString(). -/
structure Stamp where
  dateStr : String
  timeStr : String
deriving Repr, DecidableEq

structure ExamData where
  oid : Option String
  bookFromStamp : Option Stamp
  locationName : Option String
  eventName : Option String
deriving Repr, DecidableEq

/-- Mutable fields of the ExamApiMonitor singleton (exam-api-finder.ts
lines 38-44), plus booleans recording whether the interval and timeout
timer handles are installed. -/
structure PollerState where
  apiUrl : Option String
  isPolling : Bool
  shouldStopPolling : Bool
  processingOid : Bool
  processedOids : List String
  pollIntervalSet : Bool
  timeoutIntervalSet : Bool
deriving Repr, DecidableEq

/-- Callback dispatches observable in one tick: onExamFound and
onExamWithOid (exam-api-finder.ts lines 375-421). -/
inductive PollEvent where
  | found (exam : ExamData)
  | withOid (exam : ExamData)
deriving Repr, DecidableEq

/-- Outcome of the axios.get in one tick.  `ok none` models a response
whose DATA field is missing or not an array (line 305); `err` models a
thrown fetch error, with `endpointInvalidation` true when the error is
ECONNREFUSED or HTTP 404 (line 448), carrying the outcomes the per-attempt
browser capture would produce if re-capture runs. -/
inductive FetchResult where
  | ok (data : Option (List ExamData))
  | err (endpointInvalidation : Bool) (captureOutcomes : List (Option String))
deriving Repr, DecidableEq

/-- The options of one startPolling session (interface PollingOptions).
`cbThrows` is the oracle telling whether the awaited onExamWithOid
callback rejects for a given exam; onExamFound errors are swallowed at
the call site and do not influence the state, so they are not tracked. -/
structure PollCfg where
  targetDateStr : String
  targetTimeStr : String
  stopOnFirstOid : Bool
  hasOnExamWithOid : Bool
  priorityLocations : List String
  cbThrows : ExamData → Bool

/-- Does the first character list start with the second one? -/
def listStartsWith : List Char → List Char → Bool
  | _, [] => true
  | [], _ :: _ => false
  | c :: cs, p :: ps => p == c && listStartsWith cs ps

/-- Does the first character list contain the second as a contiguous
segment? -/
def listContainsSeg : List Char → List Char → Bool
  | s, pat =>
    match s with
    | [] => pat.isEmpty
    | _ :: cs => listStartsWith s pat || listContainsSeg cs pat

/-- JavaScript String.prototype.toLowerCase, as a character list. -/
def toLowerList (s : String) : List Char :=
  s.toList.map Char.toLower

/-- JavaScript String.prototype.includes on lowered character lists. -/
def strIncludes (s pat : List Char) : Bool :=
  listContainsSeg s pat

/-- a.locationName?.toLowerCase() || "" (line 169). -/
def locationLower (e : ExamData) : List Char :=
  toLowerList (e.locationName.getD "")

/-- The forEach of prioritizeExams (lines 176-184): index of the first
priority location whose lowercased text occurs in the exam location, as
an Option. -/
def examPriority (loc : List Char) : List String → Option Nat
  | [] => none
  | p :: ps =>
    if strIncludes loc (toLowerList p) then some 0
    else (examPriority loc ps).map (· + 1)

/-- Sort key equivalent to the comparator of prioritizeExams
(lines 168-197): ranked records compare by their first-match index,
unranked records (priority -1 in the source) compare after every ranked
one, and equal keys compare as 0. -/
def examKey (priorityLocations : List String) (e : ExamData) : Nat :=
  (examPriority (locationLower e) priorityLocations).getD priorityLocations.length

/-- Stable insertion used to model Array.prototype.sort, which ECMA-262
requires to be stable: an element is placed before the first element
whose key is not smaller, so elements with equal keys keep their
relative order. -/
def insertByKey (key : ExamData → Nat) (x : ExamData) : List ExamData → List ExamData
  | [] => [x]
  | y :: ys => if key x ≤ key y then x :: y :: ys else y :: insertByKey key x ys

def sortByKey (key : ExamData → Nat) : List ExamData → List ExamData
  | [] => []
  | x :: xs => insertByKey key x (sortByKey key xs)

/-- ExamApiMonitor.prioritizeExams (lines 159-198): identity when no
priority locations are given, otherwise the stable sort by `examKey`. -/
def prioritizeExams (exams : List ExamData) (priorityLocations : List String) : List ExamData :=
  if priorityLocations.isEmpty then exams
  else sortByKey (examKey priorityLocations) exams

/-- The filter predicate of the tick (lines 311-325): the record carries a
bookFromStamp whose date equals the target date and whose time agrees with
the target time on the first five characters (minute granularity). -/
def matchesTarget (targetDateStr targetTimeStr : String) (e : ExamData) : Bool :=
  match e.bookFromStamp with
  | none => false
  | some ts => ts.dateStr == targetDateStr && ts.timeStr.take 5 == targetTimeStr.take 5

/-- ExamApiMonitor.stopPolling (lines 467-483): clear both timers; if the
session was active, mark it inactive and keep shouldStopPolling set. -/
def stopPolling (st : PollerState) : PollerState :=
  let st1 := { st with pollIntervalSet := false, timeoutIntervalSet := false }
  if st1.isPolling then { st1 with isPolling := false, shouldStopPolling := true } else st1

/-- ExamApiMonitor.captureApiUrl (lines 49-154): up to maxRetries
attempts, each attempt either captures a URL or fails; the first captured
URL is returned, and null after the retry budget is exhausted. -/
def captureApiUrl : List (Option String) → Nat → Option String
  | _, 0 => none
  | [], _ + 1 => none
  | some u :: _, _ + 1 => some u
  | none :: rest, n + 1 => captureApiUrl rest n

/-- Default maxRetries of captureApiUrl (line 50). -/
def defaultCaptureRetries : Nat := 20

/-- Retry budget of the mid-session re-capture, captureApiUrl(3, 5000)
at line 454. -/
def recaptureRetries : Nat := 3

/-- The for-loop over the ranked matches (lines 362-435).  For each exam:
skip it when its oid was already processed; otherwise fire onExamFound;
when the exam carries an oid, mark the oid processed, set processingOid,
set shouldStopPolling when stopOnFirstOid, await onExamWithOid (a
rejection is caught: processingOid is cleared and the loop continues),
and on a resolved callback with stopOnFirstOid call stopPolling and
return from the tick. -/
def processExams (cfg : PollCfg) (st : PollerState) :
    List ExamData → PollerState × List PollEvent
  | [] => (st, [])
  | exam :: rest =>
    match exam.oid with
    | some oid =>
      if st.processedOids.contains oid then
        processExams cfg st rest
      else
        let st1 := { st with processedOids := oid :: st.processedOids }
        if cfg.hasOnExamWithOid then
          let st2 := { st1 with processingOid := true,
                                shouldStopPolling :=
                                  cfg.stopOnFirstOid || st1.shouldStopPolling }
          if cfg.cbThrows exam then
            let st3 := { st2 with processingOid := false }
            let r := processExams cfg st3 rest
            (r.1, PollEvent.found exam :: PollEvent.withOid exam :: r.2)
          else
            let st3 := { st2 with processingOid := false }
            if cfg.stopOnFirstOid then
              (stopPolling st3, [PollEvent.found exam, PollEvent.withOid exam])
            else
              let r := processExams cfg st3 rest
              (r.1, PollEvent.found exam :: PollEvent.withOid exam :: r.2)
        else
          if cfg.stopOnFirstOid then
            (stopPolling { st1 with shouldStopPolling := true },
             [PollEvent.found exam])
          else
            let r := processExams cfg st1 rest
            (r.1, PollEvent.found exam :: r.2)
    | none =>
      let r := processExams cfg st rest
      (r.1, PollEvent.found exam :: r.2)

/-- Result of one interval tick: the poller state after the tick, the
callback dispatches it performed, and whether it fetched the endpoint. -/
structure TickResult where
  state : PollerState
  events : List PollEvent
  fetched : Bool
deriving Repr, DecidableEq

/-- Body of the setInterval callback installed by startPolling
(lines 275-461): honour a pending stop request, skip the tick while a
previous oid is still being processed, otherwise fetch; on an
endpoint-invalidation error clear the cached URL and re-capture with
`recaptureRetries` attempts, stopping the session when re-capture fails;
on a well-formed response filter, rank and process the matches. -/
def pollTick (cfg : PollCfg) (st : PollerState) (fetch : FetchResult) : TickResult :=
  if st.shouldStopPolling then
    { state := stopPolling st, events := [], fetched := false }
  else if st.processingOid then
    { state := st, events := [], fetched := false }
  else
    match fetch with
    | FetchResult.err invalidation outcomes =>
      if invalidation then
        let stCleared := { st with apiUrl := none }
        match captureApiUrl outcomes recaptureRetries with
        | some url =>
          { state := { stCleared with apiUrl := some url }, events := [], fetched := true }
        | none =>
          { state := stopPolling stCleared, events := [], fetched := true }
      else
        { state := st, events := [], fetched := true }
    | FetchResult.ok none => { state := st, events := [], fetched := true }
    | FetchResult.ok (some data) =>
      let matching := data.filter (matchesTarget cfg.targetDateStr cfg.targetTimeStr)
      if matching.isEmpty then
        { state := st, events := [], fetched := true }
      else
        let ranked := prioritizeExams matching cfg.priorityLocations
        let r := processExams cfg st ranked
        { state := r.1, events := r.2, fetched := true }

/-- The session state right after startPolling reached the polling loop
(lines 214-275): flags reset, processedOids cleared, both timers set. -/
def startPollingState (url : String) : PollerState :=
  { apiUrl := some url, isPolling := true, shouldStopPolling := false,
    processingOid := false, processedOids := [],
    pollIntervalSet := true, timeoutIntervalSet := true }

/-- A polling session: the ticks fire in sequence, each consuming one
fetch outcome, threading the session state and concatenating the
dispatched events. -/
def runTicks (cfg : PollCfg) (st : PollerState) :
    List FetchResult → PollerState × List PollEvent
  | [] => (st, [])
  | f :: fs =>
    let r := pollTick cfg st f
    let rest := runTicks cfg r.state fs
    (rest.1, r.events ++ rest.2)

/-- Number of onExamWithOid dispatches for a given record id in a list of
events. -/
def withOidCount (evs : List PollEvent) (oid : String) : Nat :=
  evs.countP (fun e =>
    match e with
    | PollEvent.withOid ex => ex.oid == some oid
    | PollEvent.found _ => false)

/-!
Part 2: the display pool and the account orchestrator of
src/cluster/runCluster.ts (individual-browser variant).

The global state of the module is the set activeDisplays together with
the per-schedule ScheduleManager.  Each transition below is one
synchronous block of the source between two await points; a batch run is
an arbitrary interleaving of those blocks, driven by a list of scheduler
choices.
-/

/-- The fixed pool of ten pre-created displays :1 .. :10 (line 378). -/
def displayPool : List String :=
  (List.range 10).map (fun i => ":" ++ toString (i + 1))

/-- allocateDisplay (lines 387-404): under the allocation mutex, scan the
pool for the first display not marked in use, mark it and return it;
return null when the whole pool is busy.  The promise-chain mutex
serialises these scans, so the model treats one scan-and-mark as a single
state transition. -/
def allocateDisplay (activeDisplays : List String) : Option String × List String :=
  match displayPool.find? (fun d => !(activeDisplays.contains d)) with
  | some d => (some d, d :: activeDisplays)
  | none => (none, activeDisplays)

/-- releaseDisplay (lines 410-417): remove the display from the in-use
set when present, otherwise do nothing. -/
def releaseDisplay (activeDisplays : List String) (d : String) : List String :=
  if activeDisplays.contains d then activeDisplays.erase d else activeDisplays

/-- maxRetries of waitForAvailableDisplay (line 424). -/
def maxDisplayRetries : Nat := 10

/-- Per-account behaviour oracle: whether createBrowserInstance
eventually returns an instance, and whether the startBooking race
resolves (success) or rejects (error or booking timeout). -/
structure AccountSpec where
  browserOk : Bool
  bookingOk : Bool
deriving Repr, DecidableEq

/-- Where one admitted processAccount invocation currently is.
`waitingDisplay n` is the waitForAvailableDisplay loop with n failed
attempts so far; the display of a running task is the one its
waitForAvailableDisplay returned. -/
inductive TaskState where
  | waitingDisplay (attempt : Nat)
  | creatingBrowser (display : String)
  | booking (display : String)
  | finished
deriving Repr, DecidableEq

/-- The aggregate counters of a ScheduleManager (lines 370-372). -/
structure Counters where
  processedCount : Nat
  successCount : Nat
  errorCount : Nat
deriving Repr, DecidableEq

/-- Observable pool operations: an allocateDisplay call that returned a
display, and a releaseDisplay call that actually freed one (the source
logs exactly these two). -/
inductive PoolEvent where
  | acquired (d : String)
  | released (d : String)
deriving Repr, DecidableEq

/-- One batch (one runAllAccounts invocation) plus the global display
set.  `tasks` are the admitted accounts in admission order, `browsers`
the ScheduleManager.browsers list as pairs (task index, display),
`settled` records that the final section and the finally block of
runAllAccounts have run. -/
structure BatchState where
  queue : List AccountSpec
  tasks : List (AccountSpec × TaskState)
  browsers : List (Nat × String)
  counters : Counters
  shouldStop : Bool
  activeDisplays : List String
  events : List PoolEvent
  maxConcurrent : Nat
  settled : Bool
deriving Repr, DecidableEq

/-- Scheduler choices: admit the next queued account (one iteration of
the inner while of lines 866-881, which also runs the admitted task's
synchronous prefix including its shouldStop entry check), run the next
suspended block of task i, deliver a stopSchedule call, or settle the
batch (lines 911-1018: allSettled plus the finally block). -/
inductive Choice where
  | dequeue
  | taskStep (i : Nat)
  | stop
  | settle
deriving Repr, DecidableEq

def finishedCount (tasks : List (AccountSpec × TaskState)) : Nat :=
  tasks.countP (fun t => t.2 == TaskState.finished)

def unfinishedCount (tasks : List (AccountSpec × TaskState)) : Nat :=
  tasks.countP (fun t => !(t.2 == TaskState.finished))

def allFinished (tasks : List (AccountSpec × TaskState)) : Bool :=
  tasks.all (fun t => t.2 == TaskState.finished)

/-- releaseDisplay plus the event log entry the source prints when the
release actually freed the display. -/
def releaseLogged (activeDisplays : List String) (events : List PoolEvent) (d : String) :
    List String × List PoolEvent :=
  if activeDisplays.contains d then
    (activeDisplays.erase d, events ++ [PoolEvent.released d])
  else
    (activeDisplays, events)

/-- The display releases performed by stopSchedule over the tracked
browsers list (lines 1043-1049). -/
def releaseAll (activeDisplays : List String) (events : List PoolEvent) :
    List (Nat × String) → List String × List PoolEvent
  | [] => (activeDisplays, events)
  | b :: bs =>
    let p := releaseLogged activeDisplays events b.2
    releaseAll p.1 p.2 bs

/-- Counters after the try/catch of one processAccount body settles
(lines 678-679 and 705-706): processedCount always increments, and
exactly one of successCount / errorCount does. -/
def bumpCounters (c : Counters) (success : Bool) : Counters :=
  if success then
    { c with processedCount := c.processedCount + 1, successCount := c.successCount + 1 }
  else
    { c with processedCount := c.processedCount + 1, errorCount := c.errorCount + 1 }

/-- One scheduler step.  `none` means the chosen transition is not
enabled in this state. -/
def batchStep (s : BatchState) : Choice → Option BatchState
  | Choice.dequeue =>
    if s.settled then none
    else if s.shouldStop then none
    else
      match s.queue with
      | [] => none
      | a :: rest =>
        if unfinishedCount s.tasks < s.maxConcurrent then
          some { s with queue := rest,
                        tasks := s.tasks ++ [(a, TaskState.waitingDisplay 0)] }
        else none
  | Choice.taskStep i =>
    if s.settled then none
    else
      match s.tasks[i]? with
      | none => none
      | some (a, ts) =>
        match ts with
        | TaskState.waitingDisplay attempt =>
          match allocateDisplay s.activeDisplays with
          | (some d, active') =>
            some { s with activeDisplays := active',
                          events := s.events ++ [PoolEvent.acquired d],
                          tasks := s.tasks.set i (a, TaskState.creatingBrowser d) }
          | (none, _) =>
            if attempt + 1 < maxDisplayRetries then
              some { s with tasks := s.tasks.set i (a, TaskState.waitingDisplay (attempt + 1)) }
            else
              -- waitForAvailableDisplay returned null: processAccount
              -- throws, the catch counts the error, the finally has no
              -- display to release (lines 639-642, 704-706, 752-755)
              some { s with tasks := s.tasks.set i (a, TaskState.finished),
                            counters := bumpCounters s.counters false }
        | TaskState.creatingBrowser d =>
          if a.browserOk then
            some { s with tasks := s.tasks.set i (a, TaskState.booking d),
                          browsers := s.browsers ++ [(i, d)] }
          else
            -- createBrowserInstance returned null: throw, catch counts
            -- the error, finally releases the display
            let p := releaseLogged s.activeDisplays s.events d
            some { s with tasks := s.tasks.set i (a, TaskState.finished),
                          counters := bumpCounters s.counters false,
                          activeDisplays := p.1, events := p.2 }
        | TaskState.booking d =>
          -- startBooking settled: count, then the finally closes the
          -- browser, drops it from the tracked list and releases the
          -- display (lines 671-706, 739-756)
          let p := releaseLogged s.activeDisplays s.events d
          some { s with tasks := s.tasks.set i (a, TaskState.finished),
                        counters := bumpCounters s.counters a.bookingOk,
                        browsers := s.browsers.erase (i, d),
                        activeDisplays := p.1, events := p.2 }
        | TaskState.finished => none
  | Choice.stop =>
    if s.settled then none
    else if s.shouldStop then none
    else
      -- stopSchedule (lines 1022-1090): mark shouldStop, release the
      -- displays of all tracked browsers, clear the tracked list
      let p := releaseAll s.activeDisplays s.events s.browsers
      some { s with shouldStop := true, browsers := [],
                    activeDisplays := p.1, events := p.2 }
  | Choice.settle =>
    if s.settled then none
    else
      if allFinished s.tasks && (s.queue.isEmpty || s.shouldStop) then
        -- the processing loop has exited and Promise.allSettled has
        -- drained; the finally block of runAllAccounts closes remaining
        -- browsers and unconditionally clears the global display set
        -- (lines 991-1018, in particular activeDisplays.clear())
        some { s with settled := true, browsers := [], activeDisplays := [] }
      else none

/-- Apply a choice when it is enabled, keep the state otherwise. -/
def stepOpt (s : BatchState) (c : Choice) : BatchState :=
  (batchStep s c).getD s

/-- A batch run under a given interleaving. -/
def runSteps (s : BatchState) (cs : List Choice) : BatchState :=
  cs.foldl stepOpt s

/-- State at the top of runAllAccounts once the accounts are loaded
(lines 777-855): fresh manager, concurrency ceiling min(10, accounts),
and whatever the global display set currently holds (it is shared by
every concurrently running schedule). -/
def initBatch (accounts : List AccountSpec) (initialActive : List String) : BatchState :=
  { queue := accounts, tasks := [], browsers := [],
    counters := { processedCount := 0, successCount := 0, errorCount := 0 },
    shouldStop := false, activeDisplays := initialActive, events := [],
    maxConcurrent := min 10 accounts.length, settled := false }

def countAcquired (events : List PoolEvent) (d : String) : Nat :=
  events.countP (fun e => e == PoolEvent.acquired d)

def countReleased (events : List PoolEvent) (d : String) : Nat :=
  events.countP (fun e => e == PoolEvent.released d)

/-!
Claims about the poller and the pool, each stated over the definitions
above.
-/

/-- Claim C9: releaseDisplay is idempotent — for every display, releasing
twice in a row equals releasing once, after a release the display is
absent from the in-use set, releasing it frees exactly one unit of
capacity, and releasing an already-free display is a no-op (never an
error: the function is total). -/
theorem claim_C9_release_idempotent :
    (∀ (active : List String) (d : String), active.Nodup →
      (releaseDisplay active d).contains d = false ∧
      releaseDisplay (releaseDisplay active d) d = releaseDisplay active d ∧
      (releaseDisplay active d).length + (if active.contains d then 1 else 0) =
        active.length) ∧
    (∀ (active : List String) (d : String),
      active.contains d = false → releaseDisplay active d = active) := by
  have hno : ∀ (active : List String) (d : String),
      active.contains d = false → releaseDisplay active d = active := by
    intro active d h
    simp only [releaseDisplay, h]
    simp
  constructor
  · intro active d hnd
    by_cases h : active.contains d
    · have hmem : d ∈ active := by
        rw [← List.elem_iff]; exact h
      have hrel : releaseDisplay active d = active.erase d := by
        simp only [releaseDisplay, h, if_true]
      have hne : d ∉ active.erase d := List.Nodup.not_mem_erase hnd
      have hc : (active.erase d).contains d = false := by
        by_contra hc
        exact hne (by
          rw [← List.elem_iff]
          exact Bool.of_not_eq_false hc)
      refine ⟨by rw [hrel]; exact hc, by rw [hrel, ← hrel, hno _ _ (by rw [hrel]; exact hc)], ?_⟩
      · rw [hrel, if_pos h]
        have hlen := List.length_erase_of_mem hmem
        have hpos : 0 < active.length := List.length_pos_of_mem hmem
        omega
    · have h0 : active.contains d = false := Bool.of_not_eq_true h
      refine ⟨by rw [hno _ _ h0]; exact h0, by rw [hno _ _ h0, hno _ _ h0], ?_⟩
      · rw [hno _ _ h0, h0]
        simp
  · intro active d h
    simp only [releaseDisplay, h]
    simp

/-- Witness for C9 at a concrete pool state. -/
theorem claim_C9_witness :
    (releaseDisplay [":1", ":2"] ":1").contains ":1" = false ∧
    releaseDisplay (releaseDisplay [":1", ":2"] ":1") ":1" =
      releaseDisplay [":1", ":2"] ":1" ∧
    (releaseDisplay [":1", ":2"] ":1").length +
      (if ([":1", ":2"] : List String).contains ":1" then 1 else 0) = 2 :=
  claim_C9_release_idempotent.1 [":1", ":2"] ":1" (by decide)

/-- Claim C6: when the previous onExamWithOid callback is still pending
(processingOid is set) as the next interval tick fires, that tick
performs no endpoint fetch and dispatches no callback. -/
theorem claim_C6_tick_skipped_while_processing
    (cfg : PollCfg) (st : PollerState) (f : FetchResult)
    (h : st.processingOid = true) :
    (pollTick cfg st f).fetched = false ∧ (pollTick cfg st f).events = [] := by
  by_cases hs : st.shouldStopPolling
  · simp [pollTick, hs]
  · simp [pollTick, hs, h]

/-- A concrete configuration used to instantiate poller claims. -/
def busyCfg : PollCfg :=
  { targetDateStr := "2025-01-01", targetTimeStr := "10:00:00",
    stopOnFirstOid := true, hasOnExamWithOid := true,
    priorityLocations := [], cbThrows := fun _ => false }

/-- The session state while an onExamWithOid callback is pending. -/
def busyState : PollerState :=
  { startPollingState "url" with processingOid := true }

/-- Witness for C6: a pending-callback state at a concrete tick. -/
theorem claim_C6_witness :
    (pollTick busyCfg busyState (FetchResult.ok none)).fetched = false ∧
    (pollTick busyCfg busyState (FetchResult.ok none)).events = [] :=
  claim_C6_tick_skipped_while_processing busyCfg busyState (FetchResult.ok none) rfl

/-- Claim C8: an endpoint fetch failing with connection-refused or HTTP
404 makes the tick clear the cached endpoint URL and re-run capture with
a smaller retry budget (3 instead of the default 20); if re-capture
succeeds the session keeps polling (isPolling stays true, the interval
timer is untouched, the new URL is cached), and if re-capture fails the
session transitions to STOPPED (isPolling false, both timers cleared,
the URL left cleared). -/
theorem claim_C8_endpoint_invalidation_recapture
    (cfg : PollCfg) (st : PollerState)
    (h1 : st.shouldStopPolling = false) (h2 : st.processingOid = false)
    (h3 : st.isPolling = true) :
    recaptureRetries < defaultCaptureRetries ∧
    (∀ (outs : List (Option String)) (u : String),
      captureApiUrl outs recaptureRetries = some u →
      (pollTick cfg st (FetchResult.err true outs)).state.isPolling = true ∧
      (pollTick cfg st (FetchResult.err true outs)).state.apiUrl = some u ∧
      (pollTick cfg st (FetchResult.err true outs)).state.pollIntervalSet =
        st.pollIntervalSet ∧
      (pollTick cfg st (FetchResult.err true outs)).state.shouldStopPolling = false) ∧
    (∀ outs : List (Option String),
      captureApiUrl outs recaptureRetries = none →
      (pollTick cfg st (FetchResult.err true outs)).state.isPolling = false ∧
      (pollTick cfg st (FetchResult.err true outs)).state.apiUrl = none ∧
      (pollTick cfg st (FetchResult.err true outs)).state.pollIntervalSet = false ∧
      (pollTick cfg st (FetchResult.err true outs)).state.timeoutIntervalSet = false ∧
      (pollTick cfg st (FetchResult.err true outs)).state.shouldStopPolling = true) := by
  refine ⟨by decide, ?_, ?_⟩
  · intro outs u hcap
    simp [pollTick, h1, h2, hcap, h3]
  · intro outs hcap
    simp [pollTick, h1, h2, hcap, stopPolling, h3]

/-- Witness for C8: a freshly started session, one failing recapture
sequence and one succeeding one. -/
theorem claim_C8_witness :
    recaptureRetries < defaultCaptureRetries ∧
    ((pollTick busyCfg (startPollingState "url")
        (FetchResult.err true [some "v"])).state.isPolling = true ∧
      (pollTick busyCfg (startPollingState "url")
        (FetchResult.err true [some "v"])).state.apiUrl = some "v") ∧
    (pollTick busyCfg (startPollingState "url")
        (FetchResult.err true [])).state.isPolling = false :=
  have h := claim_C8_endpoint_invalidation_recapture busyCfg (startPollingState "url")
    rfl rfl rfl
  ⟨h.1,
   ⟨(h.2.1 [some "v"] "v" rfl).1, (h.2.1 [some "v"] "v" rfl).2.1⟩,
   (h.2.2 [] rfl).1⟩

lemma pairwise_of_all {R : ExamData → ExamData → Prop} (h : ∀ a b, R a b) :
    ∀ l : List ExamData, l.Pairwise R
  | [] => List.Pairwise.nil
  | _ :: xs => List.Pairwise.cons (fun b _ => h _ b) (pairwise_of_all h xs)

lemma mem_insertByKey (key : ExamData → Nat) (x a : ExamData) :
    ∀ l : List ExamData, a ∈ insertByKey key x l ↔ a = x ∨ a ∈ l := by
  intro l
  induction l with
  | nil => simp [insertByKey]
  | cons y ys ih =>
    by_cases h : key x ≤ key y
    · simp [insertByKey, h]
    · simp [insertByKey, h, ih]
      tauto

lemma pairwise_insertByKey (key : ExamData → Nat) (x : ExamData) :
    ∀ l : List ExamData, l.Pairwise (fun a b => key a ≤ key b) →
      (insertByKey key x l).Pairwise (fun a b => key a ≤ key b) := by
  intro l
  induction l with
  | nil => intro _; simp [insertByKey]
  | cons y ys ih =>
    intro hp
    rw [List.pairwise_cons] at hp
    obtain ⟨hy, hys⟩ := hp
    by_cases h : key x ≤ key y
    · simp only [insertByKey, h, if_true]
      refine List.Pairwise.cons ?_ (List.Pairwise.cons hy hys)
      intro b hb
      rcases List.mem_cons.1 hb with hb | hb
      · subst hb; exact h
      · exact Nat.le_trans h (hy b hb)
    · simp only [insertByKey, h, if_false]
      refine List.Pairwise.cons ?_ (ih hys)
      intro b hb
      rcases (mem_insertByKey key x b ys).1 hb with hb | hb
      · subst hb; exact Nat.le_of_not_le h
      · exact hy b hb

lemma pairwise_sortByKey (key : ExamData → Nat) :
    ∀ l : List ExamData, (sortByKey key l).Pairwise (fun a b => key a ≤ key b) := by
  intro l
  induction l with
  | nil => simp [sortByKey]
  | cons x xs ih => exact pairwise_insertByKey key x (sortByKey key xs) ih

lemma filter_insertByKey (key : ExamData → Nat) (x : ExamData) (k : Nat) :
    ∀ l : List ExamData,
      (insertByKey key x l).filter (fun e => key e == k) =
        if key x == k then x :: l.filter (fun e => key e == k)
        else l.filter (fun e => key e == k) := by
  intro l
  induction l with
  | nil =>
    simp only [insertByKey]
    by_cases hx : key x == k <;> simp [List.filter, hx]
  | cons y ys ih =>
    by_cases h : key x ≤ key y
    · simp only [insertByKey, h, if_true]
      by_cases hx : key x == k <;> simp [List.filter, hx]
    · simp only [insertByKey, h, if_false]
      by_cases hx : key x = k
      · by_cases hy : key y = k
        · exfalso
          exact h (by rw [hx, ← hy])
        · have hyb : (key y == k) = false := by
            simp [hy]
          simp only [List.filter, hyb]
          rw [ih]
      · have hxb : (key x == k) = false := by
          simp [hx]
        by_cases hy : key y = k
        · have hyb : (key y == k) = true := by
            simp [hy]
          simp only [List.filter, hyb]
          rw [ih]
          simp [hxb]
        · have hyb : (key y == k) = false := by
            simp [hy]
          simp only [List.filter, hyb]
          rw [ih]

lemma filter_sortByKey (key : ExamData → Nat) (k : Nat) :
    ∀ l : List ExamData,
      (sortByKey key l).filter (fun e => key e == k) =
        l.filter (fun e => key e == k) := by
  intro l
  induction l with
  | nil => simp [sortByKey]
  | cons x xs ih =>
    simp only [sortByKey]
    rw [filter_insertByKey, ih]
    by_cases hx : key x == k <;> simp [List.filter, hx]

lemma examKey_lt_iff (e : ExamData) :
    ∀ pl : List String,
      (examKey pl e < pl.length ↔
        ∃ loc ∈ pl, strIncludes (locationLower e) (toLowerList loc) = true) := by
  intro pl
  induction pl with
  | nil => simp [examKey, examPriority]
  | cons p ps ih =>
    by_cases h : strIncludes (locationLower e) (toLowerList p)
    · have hkey : examKey (p :: ps) e = 0 := by
        simp [examKey, examPriority, h]
      rw [hkey]
      constructor
      · intro _
        exact ⟨p, List.mem_cons_self p ps, h⟩
      · intro _
        simp
    · have hb : strIncludes (locationLower e) (toLowerList p) = false :=
        Bool.of_not_eq_true h
      rcases hp : examPriority (locationLower e) ps with _ | i
      · have hkey : examKey (p :: ps) e = ps.length + 1 := by
          simp [examKey, examPriority, hb, hp]
        have hk2 : examKey ps e = ps.length := by
          simp [examKey, hp]
        rw [hkey]
        constructor
        · intro hlt
          simp at hlt
        · intro ⟨loc, hloc, hinc⟩
          rcases List.mem_cons.1 hloc with hloc | hloc
          · subst hloc
            exact absurd hinc (by simp [hb])
          · exfalso
            have := ih.2 ⟨loc, hloc, hinc⟩
            omega
      · have hkey : examKey (p :: ps) e = i + 1 := by
          simp [examKey, examPriority, hb, hp]
        have hik : examKey ps e = i := by
          simp [examKey, hp]
        rw [hkey]
        simp only [List.length_cons]
        constructor
        · intro hlt
          have hlt2 : examKey ps e < ps.length := by omega
          obtain ⟨loc, hloc, hinc⟩ := ih.1 hlt2
          exact ⟨loc, List.mem_cons_of_mem p hloc, hinc⟩
        · intro ⟨loc, hloc, hinc⟩
          rcases List.mem_cons.1 hloc with hloc | hloc
          · subst hloc
            exact absurd hinc (by simp [hb])
          · have := ih.2 ⟨loc, hloc, hinc⟩
            omega

/-- The three matching records of the C5 scenario, named by location. -/
def c5Chennai : ExamData :=
  { oid := none, bookFromStamp := some { dateStr := "2025-01-01", timeStr := "10:00:00" },
    locationName := some "Chennai", eventName := some "GZB2 Chennai" }

def c5Bangalore : ExamData :=
  { oid := none, bookFromStamp := some { dateStr := "2025-01-01", timeStr := "10:00:00" },
    locationName := some "Bangalore", eventName := some "GZB2 Bangalore" }

def c5Mumbai : ExamData :=
  { oid := none, bookFromStamp := some { dateStr := "2025-01-01", timeStr := "10:00:00" },
    locationName := some "Mumbai", eventName := some "GZB2 Mumbai" }

/-- The C5 session options: priority ranking chennai before bangalore. -/
def c5Cfg : PollCfg :=
  { targetDateStr := "2025-01-01", targetTimeStr := "10:00:00",
    stopOnFirstOid := true, hasOnExamWithOid := true,
    priorityLocations := ["chennai", "bangalore"], cbThrows := fun _ => false }

/-- Claim C5: with priority ranking [chennai, bangalore] and matching
records at bangalore, chennai, mumbai, none carrying an oid, the tick
fires the found callback for all three in the order chennai, bangalore,
mumbai; in general the ranked output is sorted by examKey (records whose
location contains a ranked keyword have key < length of the ranking and
so come before records containing none, whose key equals that length,
and records compare by the index of the first ranked keyword they
contain), and records with equal keys keep their relative input order. -/
theorem claim_C5_priority_ranking :
    (∀ (exams : List ExamData) (pl : List String),
      (prioritizeExams exams pl).Pairwise (fun a b => examKey pl a ≤ examKey pl b)) ∧
    (∀ (exams : List ExamData) (pl : List String) (k : Nat),
      (prioritizeExams exams pl).filter (fun e => examKey pl e == k) =
        exams.filter (fun e => examKey pl e == k)) ∧
    (∀ (e : ExamData) (pl : List String),
      examKey pl e < pl.length ↔
        ∃ loc ∈ pl, strIncludes (locationLower e) (toLowerList loc) = true) ∧
    (pollTick c5Cfg (startPollingState "url")
        (FetchResult.ok (some [c5Bangalore, c5Chennai, c5Mumbai]))).events =
      [PollEvent.found c5Chennai, PollEvent.found c5Bangalore,
       PollEvent.found c5Mumbai] := by
  refine ⟨?_, ?_, ?_, by decide⟩
  · intro exams pl
    by_cases hpl : pl.isEmpty
    · have hnil : pl = [] := by
        cases pl with
        | nil => rfl
        | cons x l => simp at hpl
      subst hnil
      simp only [prioritizeExams, List.isEmpty_nil, if_true]
      refine pairwise_of_all ?_ exams
      intro a b
      simp [examKey, examPriority]
    · simp only [prioritizeExams, hpl, if_false]
      exact pairwise_sortByKey (examKey pl) exams
  · intro exams pl k
    by_cases hpl : pl.isEmpty
    · simp [prioritizeExams, hpl]
    · simp only [prioritizeExams, hpl, if_false]
      exact filter_sortByKey (examKey pl) k exams
  · intro e pl
    exact examKey_lt_iff e pl

lemma stopPolling_shouldStop (st : PollerState) (h : st.shouldStopPolling = true) :
    (stopPolling st).shouldStopPolling = true := by
  by_cases hp : st.isPolling <;> simp [stopPolling, hp, h]

lemma processExams_shouldStop_mono (cfg : PollCfg) :
    ∀ (l : List ExamData) (st : PollerState), st.shouldStopPolling = true →
      ((processExams cfg st l).1).shouldStopPolling = true := by
  intro l
  induction l with
  | nil => intro st h; simpa [processExams] using h
  | cons exam rest ih =>
    intro st h
    rcases hoid : exam.oid with _ | oid
    · simp only [processExams, hoid]
      exact ih st h
    · by_cases hc : st.processedOids.contains oid
      · simp only [processExams, hoid, hc, if_true]
        exact ih st h
      · have hcf : st.processedOids.contains oid = false := Bool.of_not_eq_true hc
        by_cases hcb : cfg.hasOnExamWithOid
        · by_cases hth : cfg.cbThrows exam
          · simp only [processExams, hoid, hcf, hcb, hth]
            simp only [Bool.false_eq_true, if_false, if_true]
            exact ih _ (by simp [h])
          · have hthf : cfg.cbThrows exam = false := Bool.of_not_eq_true hth
            by_cases hsf : cfg.stopOnFirstOid
            · simp only [processExams, hoid, hcf, hcb, hthf]
              simp only [Bool.false_eq_true, if_false, if_true, hsf]
              exact stopPolling_shouldStop _ (by simp [h])
            · have hsff : cfg.stopOnFirstOid = false := Bool.of_not_eq_true hsf
              simp only [processExams, hoid, hcf, hcb, hthf, hsff]
              simp only [Bool.false_eq_true, if_false, if_true]
              exact ih _ (by simp [h])
        · have hcbf : cfg.hasOnExamWithOid = false := Bool.of_not_eq_true hcb
          by_cases hsf : cfg.stopOnFirstOid
          · simp only [processExams, hoid, hcf, hcbf, hsf]
            simp only [Bool.false_eq_true, if_false, if_true]
            exact stopPolling_shouldStop _ (by simp)
          · have hsff : cfg.stopOnFirstOid = false := Bool.of_not_eq_true hsf
            simp only [processExams, hoid, hcf, hcbf, hsff]
            simp only [Bool.false_eq_true, if_false]
            exact ih _ (by simp [h])

/-- The two matching oid-bearing records of the C4 counterexample. -/
def c4Exam1 : ExamData :=
  { oid := some "OID-A", bookFromStamp := some { dateStr := "2025-01-01", timeStr := "10:00:00" },
    locationName := some "Chennai", eventName := none }

def c4Exam2 : ExamData :=
  { oid := some "OID-B", bookFromStamp := some { dateStr := "2025-01-01", timeStr := "10:00:00" },
    locationName := some "Mumbai", eventName := none }

/-- Session options with stopOnFirstOid set and an onExamWithOid callback
that always rejects. -/
def c4CfgThrowing : PollCfg :=
  { targetDateStr := "2025-01-01", targetTimeStr := "10:00:00",
    stopOnFirstOid := true, hasOnExamWithOid := true,
    priorityLocations := [], cbThrows := fun _ => true }

/-- Session options with stopOnFirstOid set and an onExamWithOid callback
that resolves. -/
def c4CfgResolving : PollCfg :=
  { targetDateStr := "2025-01-01", targetTimeStr := "10:00:00",
    stopOnFirstOid := true, hasOnExamWithOid := true,
    priorityLocations := [], cbThrows := fun _ => false }

/-- Counterexample to claim C4 as stated: with stopOnFirstOid set, two
matching records carrying fresh oids, and an onExamWithOid callback that
throws, the tick dispatches the second record after the first callback
settled (further dispatch in the same tick) and ends with both timers
still installed and the session still active — not STOPPED. -/
theorem claim_C4_counterexample :
    (pollTick c4CfgThrowing (startPollingState "url")
        (FetchResult.ok (some [c4Exam1, c4Exam2]))).events =
      [PollEvent.found c4Exam1, PollEvent.withOid c4Exam1,
       PollEvent.found c4Exam2, PollEvent.withOid c4Exam2] ∧
    (pollTick c4CfgThrowing (startPollingState "url")
        (FetchResult.ok (some [c4Exam1, c4Exam2]))).state.pollIntervalSet = true ∧
    (pollTick c4CfgThrowing (startPollingState "url")
        (FetchResult.ok (some [c4Exam1, c4Exam2]))).state.timeoutIntervalSet = true ∧
    (pollTick c4CfgThrowing (startPollingState "url")
        (FetchResult.ok (some [c4Exam1, c4Exam2]))).state.isPolling = true := by
  decide

/-- Claim C4 as amended: with stopOnFirstOid set, dispatching a record
with a fresh oid marks shouldStopPolling (this holds whether the callback
resolves or throws, and the mark is placed before the callback runs); if
the callback resolves the session transitions to STOPPED within the tick
(exactly the two dispatches for this record, both timers cleared, session
inactive); if the callback throws the exception is logged and not fatal,
remaining matches of the same tick may still be dispatched, and the
session transitions to STOPPED at the start of the next tick, which
fetches nothing and dispatches nothing. -/
theorem claim_C4_amended_stop_on_first_oid
    (cfg : PollCfg) (st : PollerState) (exam : ExamData) (rest : List ExamData)
    (o : String)
    (hcb : cfg.hasOnExamWithOid = true) (hstop : cfg.stopOnFirstOid = true)
    (hoid : exam.oid = some o) (hnew : st.processedOids.contains o = false) :
    ((processExams cfg st (exam :: rest)).1.shouldStopPolling = true) ∧
    (cfg.cbThrows exam = false →
      (processExams cfg st (exam :: rest)).2 =
        [PollEvent.found exam, PollEvent.withOid exam] ∧
      (processExams cfg st (exam :: rest)).1.pollIntervalSet = false ∧
      (processExams cfg st (exam :: rest)).1.timeoutIntervalSet = false ∧
      (processExams cfg st (exam :: rest)).1.isPolling = false) ∧
    (cfg.cbThrows exam = true →
      ∀ f, pollTick cfg (processExams cfg st (exam :: rest)).1 f =
        { state := stopPolling (processExams cfg st (exam :: rest)).1,
          events := [], fetched := false }) := by
  have hmark : (processExams cfg st (exam :: rest)).1.shouldStopPolling = true := by
    by_cases hth : cfg.cbThrows exam
    · simp only [processExams, hoid, hnew, hcb, hth]
      simp only [Bool.false_eq_true, if_false, if_true]
      exact processExams_shouldStop_mono cfg rest _ (by simp [hstop])
    · have hthf : cfg.cbThrows exam = false := Bool.of_not_eq_true hth
      simp only [processExams, hoid, hnew, hcb, hthf, hstop]
      simp only [Bool.false_eq_true, if_false, if_true]
      exact stopPolling_shouldStop _ (by simp [hstop])
  refine ⟨hmark, ?_, ?_⟩
  · intro hthf
    simp only [processExams, hoid, hnew, hcb, hthf, hstop]
    simp only [Bool.false_eq_true, if_false, if_true]
    refine ⟨trivial, ?_, ?_, ?_⟩ <;>
      by_cases hp : st.isPolling <;> simp [stopPolling, hp]
  · intro hth f
    simp [pollTick, hmark]

/-- Witness for the amended C4 at a concrete record with a resolving
callback. -/
theorem claim_C4_witness :
    (processExams c4CfgResolving (startPollingState "url") [c4Exam1]).1.shouldStopPolling =
      true ∧
    (processExams c4CfgResolving (startPollingState "url") [c4Exam1]).2 =
      [PollEvent.found c4Exam1, PollEvent.withOid c4Exam1] ∧
    (processExams c4CfgResolving (startPollingState "url") [c4Exam1]).1.isPolling = false :=
  have h := claim_C4_amended_stop_on_first_oid c4CfgResolving (startPollingState "url")
    c4Exam1 [] "OID-A" rfl rfl rfl rfl
  ⟨h.1, (h.2.1 rfl).1, (h.2.1 rfl).2.2.2⟩

lemma stopPolling_processedOids (st : PollerState) :
    (stopPolling st).processedOids = st.processedOids := by
  by_cases hp : st.isPolling <;> simp [stopPolling, hp]

lemma processExams_oids_mono (cfg : PollCfg) :
    ∀ (l : List ExamData) (st : PollerState) (o : String),
      o ∈ st.processedOids → o ∈ (processExams cfg st l).1.processedOids := by
  intro l
  induction l with
  | nil => intro st o h; simpa [processExams] using h
  | cons exam rest ih =>
    intro st o h
    rcases hoid : exam.oid with _ | oid
    · simp only [processExams, hoid]
      exact ih st o h
    · by_cases hc : st.processedOids.contains oid
      · simp only [processExams, hoid, hc, if_true]
        exact ih st o h
      · have hcf : st.processedOids.contains oid = false := Bool.of_not_eq_true hc
        have hmem1 : o ∈ oid :: st.processedOids := List.mem_cons_of_mem oid h
        by_cases hcb : cfg.hasOnExamWithOid
        · by_cases hth : cfg.cbThrows exam
          · simp only [processExams, hoid, hcf, hcb, hth]
            simp only [Bool.false_eq_true, if_false, if_true]
            exact ih _ o hmem1
          · have hthf : cfg.cbThrows exam = false := Bool.of_not_eq_true hth
            by_cases hsf : cfg.stopOnFirstOid
            · simp only [processExams, hoid, hcf, hcb, hthf, hsf]
              simp only [Bool.false_eq_true, if_false, if_true]
              rw [stopPolling_processedOids]
              exact hmem1
            · have hsff : cfg.stopOnFirstOid = false := Bool.of_not_eq_true hsf
              simp only [processExams, hoid, hcf, hcb, hthf, hsff]
              simp only [Bool.false_eq_true, if_false, if_true]
              exact ih _ o hmem1
        · have hcbf : cfg.hasOnExamWithOid = false := Bool.of_not_eq_true hcb
          by_cases hsf : cfg.stopOnFirstOid
          · simp only [processExams, hoid, hcf, hcbf, hsf]
            simp only [Bool.false_eq_true, if_false, if_true]
            rw [stopPolling_processedOids]
            exact hmem1
          · have hsff : cfg.stopOnFirstOid = false := Bool.of_not_eq_true hsf
            simp only [processExams, hoid, hcf, hcbf, hsff]
            simp only [Bool.false_eq_true, if_false]
            exact ih _ o hmem1

lemma withOidCount_found (oid : String) (exam : ExamData) (evs : List PollEvent) :
    withOidCount (PollEvent.found exam :: evs) oid = withOidCount evs oid := by
  simp [withOidCount, List.countP_cons]

lemma withOidCount_withOid (oid : String) (exam : ExamData) (evs : List PollEvent) :
    withOidCount (PollEvent.withOid exam :: evs) oid =
      withOidCount evs oid + (if exam.oid == some oid then 1 else 0) := by
  simp only [withOidCount, List.countP_cons]

lemma processExams_count (cfg : PollCfg) (oid : String) :
    ∀ (l : List ExamData) (st : PollerState),
      (oid ∈ st.processedOids → withOidCount (processExams cfg st l).2 oid = 0) ∧
      withOidCount (processExams cfg st l).2 oid ≤ 1 ∧
      (1 ≤ withOidCount (processExams cfg st l).2 oid →
        oid ∈ (processExams cfg st l).1.processedOids) := by
  intro l
  induction l with
  | nil =>
    intro st
    refine ⟨fun _ => rfl, by simp [processExams, withOidCount], fun h => ?_⟩
    simp [processExams, withOidCount] at h
  | cons exam rest ih =>
    intro st
    rcases hoid : exam.oid with _ | o
    · -- no oid: one found event, recurse with the same state
      simp only [processExams, hoid, withOidCount_found]
      exact ih st
    · by_cases hc : st.processedOids.contains o
      · simp only [processExams, hoid, hc, if_true]
        exact ih st
      · have hcf : st.processedOids.contains o = false := Bool.of_not_eq_true hc
        have honotin : o ∉ st.processedOids :=
          fun hmem => hc (List.elem_iff.mpr hmem)
        by_cases hcb : cfg.hasOnExamWithOid
        · by_cases hth : cfg.cbThrows exam
          · -- callback throws: events found :: withOid :: rest-events
            simp only [processExams, hoid, hcf, hcb, hth]
            simp only [Bool.false_eq_true, if_false, if_true]
            rw [withOidCount_found, withOidCount_withOid, hoid]
            by_cases heq : o = oid
            · subst heq
              have hmem : o ∈ o :: st.processedOids := List.mem_cons_self o _
              have h0 := (ih { st with processedOids := o :: st.processedOids,
                                       processingOid := false,
                                       shouldStopPolling :=
                                         cfg.stopOnFirstOid || st.shouldStopPolling }).1 hmem
              refine ⟨fun hin => absurd hin honotin, ?_, fun _ => ?_⟩
              · rw [h0]; simp
              · exact processExams_oids_mono cfg rest _ o hmem
            · have hne : (some o == some oid) = false := by
                simp [heq]
              rw [hne]
              simp only [Bool.false_eq_true, if_false, Nat.add_zero]
              have ihr := ih { st with processedOids := o :: st.processedOids,
                                       processingOid := false,
                                       shouldStopPolling :=
                                         cfg.stopOnFirstOid || st.shouldStopPolling }
              refine ⟨fun hin => ihr.1 (List.mem_cons_of_mem o hin), ihr.2.1, ihr.2.2⟩
          · have hthf : cfg.cbThrows exam = false := Bool.of_not_eq_true hth
            by_cases hsf : cfg.stopOnFirstOid
            · -- callback resolves, stopOnFirstOid: tick returns
              simp only [processExams, hoid, hcf, hcb, hthf, hsf]
              simp only [Bool.false_eq_true, if_false, if_true]
              rw [withOidCount_found, withOidCount_withOid, hoid]
              simp only [withOidCount, List.countP_nil, Nat.zero_add]
              by_cases heq : o = oid
              · subst heq
                refine ⟨fun hin => absurd hin honotin, by simp, fun _ => ?_⟩
                rw [stopPolling_processedOids]
                exact List.mem_cons_self o _
              · have hne : (some o == some oid) = false := by
                  simp [heq]
                rw [hne]
                refine ⟨?_, ?_, ?_⟩ <;> simp
            · have hsff : cfg.stopOnFirstOid = false := Bool.of_not_eq_true hsf
              simp only [processExams, hoid, hcf, hcb, hthf, hsff]
              simp only [Bool.false_eq_true, if_false, if_true]
              rw [withOidCount_found, withOidCount_withOid, hoid]
              by_cases heq : o = oid
              · subst heq
                have hmem : o ∈ o :: st.processedOids := List.mem_cons_self o _
                have h0 := (ih { st with processedOids := o :: st.processedOids,
                                         processingOid := false,
                                         shouldStopPolling :=
                                           false || st.shouldStopPolling }).1 hmem
                refine ⟨fun hin => absurd hin honotin, ?_, fun _ => ?_⟩
                · rw [h0]; simp
                · exact processExams_oids_mono cfg rest _ o hmem
              · have hne : (some o == some oid) = false := by
                  simp [heq]
                rw [hne]
                simp only [Bool.false_eq_true, if_false, Nat.add_zero]
                have ihr := ih { st with processedOids := o :: st.processedOids,
                                         processingOid := false,
                                         shouldStopPolling :=
                                           false || st.shouldStopPolling }
                refine ⟨fun hin => ihr.1 (List.mem_cons_of_mem o hin), ihr.2.1, ihr.2.2⟩
        · have hcbf : cfg.hasOnExamWithOid = false := Bool.of_not_eq_true hcb
          by_cases hsf : cfg.stopOnFirstOid
          · simp only [processExams, hoid, hcf, hcbf, hsf]
            simp only [Bool.false_eq_true, if_false, if_true]
            rw [withOidCount_found]
            simp only [withOidCount, List.countP_nil]
            refine ⟨?_, ?_, ?_⟩ <;> simp
          · have hsff : cfg.stopOnFirstOid = false := Bool.of_not_eq_true hsf
            simp only [processExams, hoid, hcf, hcbf, hsff]
            simp only [Bool.false_eq_true, if_false]
            rw [withOidCount_found]
            have ihr := ih { st with processedOids := o :: st.processedOids }
            by_cases heq : o = oid
            · subst heq
              have hmem : o ∈ o :: st.processedOids := List.mem_cons_self o _
              have h0 := (ih { st with processedOids := o :: st.processedOids }).1 hmem
              refine ⟨fun hin => absurd hin honotin, ?_, fun _ => ?_⟩
              · rw [h0]; simp
              · exact processExams_oids_mono cfg rest _ o hmem
            · refine ⟨fun hin => ihr.1 (List.mem_cons_of_mem o hin), ihr.2.1, ihr.2.2⟩

lemma withOidCount_append (oid : String) (a b : List PollEvent) :
    withOidCount (a ++ b) oid = withOidCount a oid + withOidCount b oid := by
  simp [withOidCount, List.countP_append]

lemma pollTick_oids_mono (cfg : PollCfg) (st : PollerState) (f : FetchResult)
    (o : String) (h : o ∈ st.processedOids) :
    o ∈ (pollTick cfg st f).state.processedOids := by
  by_cases hss : st.shouldStopPolling
  · simp only [pollTick, hss, if_true]
    rw [stopPolling_processedOids]
    exact h
  · have hssf : st.shouldStopPolling = false := Bool.of_not_eq_true hss
    by_cases hpo : st.processingOid
    · simp [pollTick, hssf, hpo]
      exact h
    · have hpof : st.processingOid = false := Bool.of_not_eq_true hpo
      rcases f with data | ⟨inv, outs⟩
      · rcases data with _ | data
        · simpa [pollTick, hssf, hpof] using h
        · simp only [pollTick, hssf, hpof]
          simp only [Bool.false_eq_true, if_false]
          by_cases hm : (data.filter
              (matchesTarget cfg.targetDateStr cfg.targetTimeStr)).isEmpty
          · simpa [hm] using h
          · have hmf := Bool.of_not_eq_true hm
            simp only [hmf, Bool.false_eq_true, if_false]
            exact processExams_oids_mono cfg _ st o h
      · rcases inv with _ | _
        · simpa [pollTick, hssf, hpof] using h
        · simp only [pollTick, hssf, hpof]
          simp only [Bool.false_eq_true, if_false, if_true]
          rcases hcap : captureApiUrl outs recaptureRetries with _ | u
          · simp only [hcap]
            rw [stopPolling_processedOids]
            exact h
          · simpa [hcap] using h

lemma pollTick_count (cfg : PollCfg) (oid : String) (st : PollerState) (f : FetchResult) :
    (oid ∈ st.processedOids → withOidCount (pollTick cfg st f).events oid = 0) ∧
    withOidCount (pollTick cfg st f).events oid ≤ 1 ∧
    (1 ≤ withOidCount (pollTick cfg st f).events oid →
      oid ∈ (pollTick cfg st f).state.processedOids) := by
  by_cases hss : st.shouldStopPolling
  · simp [pollTick, hss, withOidCount]
  · have hssf : st.shouldStopPolling = false := Bool.of_not_eq_true hss
    by_cases hpo : st.processingOid
    · simp [pollTick, hssf, hpo, withOidCount]
    · have hpof : st.processingOid = false := Bool.of_not_eq_true hpo
      rcases f with data | ⟨inv, outs⟩
      · rcases data with _ | data
        · simp [pollTick, hssf, hpof, withOidCount]
        · simp only [pollTick, hssf, hpof]
          simp only [Bool.false_eq_true, if_false]
          by_cases hm : (data.filter
              (matchesTarget cfg.targetDateStr cfg.targetTimeStr)).isEmpty
          · simp [hm, withOidCount]
          · have hmf := Bool.of_not_eq_true hm
            simp only [hmf, Bool.false_eq_true, if_false]
            exact processExams_count cfg oid _ st
      · rcases inv with _ | _
        · simp [pollTick, hssf, hpof, withOidCount]
        · simp only [pollTick, hssf, hpof]
          simp only [Bool.false_eq_true, if_false, if_true]
          rcases hcap : captureApiUrl outs recaptureRetries with _ | u
          · simp [hcap, withOidCount]
          · simp [hcap, withOidCount]

lemma runTicks_count (cfg : PollCfg) (oid : String) :
    ∀ (fs : List FetchResult) (st : PollerState),
      (oid ∈ st.processedOids → withOidCount (runTicks cfg st fs).2 oid = 0) ∧
      withOidCount (runTicks cfg st fs).2 oid ≤ 1 := by
  intro fs
  induction fs with
  | nil => intro st; simp [runTicks, withOidCount]
  | cons f fs ih =>
    intro st
    have htick := pollTick_count cfg oid st f
    have ihs := ih (pollTick cfg st f).state
    simp only [runTicks, withOidCount_append]
    constructor
    · intro hin
      rw [htick.1 hin, ihs.1 (pollTick_oids_mono cfg st f oid hin)]
    · by_cases h2 : 1 ≤ withOidCount (pollTick cfg st f).events oid
      · have h3 := ihs.1 (htick.2.2 h2)
        have h4 := htick.2.1
        omega
      · have h4 : withOidCount (pollTick cfg st f).events oid = 0 := by omega
        have h5 := ihs.2
        omega

/-- Claim C1: within one polling session (processedOids cleared at
startPolling), over any sequence of poll ticks with any fetch outcomes,
a given record id triggers the onExamWithOid callback at most once, even
when records bearing it appear in the results of several ticks. -/
theorem claim_C1_at_most_once_dispatch
    (cfg : PollCfg) (url : String) (fetches : List FetchResult) (oid : String) :
    withOidCount (runTicks cfg (startPollingState url) fetches).2 oid ≤ 1 :=
  (runTicks_count cfg oid fetches (startPollingState url)).2

lemma batchStep_settled_none (s : BatchState) (c : Choice) (h : s.settled = true) :
    batchStep s c = none := by
  cases c <;> simp [batchStep, h]

lemma runSteps_settled_active_empty :
    ∀ (cs : List Choice) (s : BatchState),
      (s.settled = true → s.activeDisplays = []) →
      ((runSteps s cs).settled = true → (runSteps s cs).activeDisplays = []) := by
  intro cs
  induction cs with
  | nil => intro s h; exact h
  | cons c cs ih =>
    intro s h
    refine ih (stepOpt s c) ?_
    by_cases hs : s.settled
    · rw [stepOpt, batchStep_settled_none s c hs]
      exact h
    · have hsf : s.settled = false := Bool.of_not_eq_true hs
      intro hset
      cases c with
      | dequeue =>
        by_cases hstop : s.shouldStop
        · simp [stepOpt, batchStep, hsf, hstop] at hset
        · have hstf : s.shouldStop = false := Bool.of_not_eq_true hstop
          rcases hq : s.queue with _ | ⟨a, rest⟩
          · simp [stepOpt, batchStep, hsf, hstf, hq] at hset
          · by_cases hcap : unfinishedCount s.tasks < s.maxConcurrent
            · simp [stepOpt, batchStep, hsf, hstf, hq, hcap] at hset
            · simp [stepOpt, batchStep, hsf, hstf, hq, hcap] at hset
      | taskStep i =>
        rcases ht : s.tasks[i]? with _ | ⟨a, ts⟩
        · simp [stepOpt, batchStep, hsf, ht] at hset
        · cases ts with
          | waitingDisplay attempt =>
            rcases halloc : allocateDisplay s.activeDisplays with ⟨d?, active'⟩
            rcases d? with _ | d
            · by_cases hatt : attempt + 1 < maxDisplayRetries
              · simp [stepOpt, batchStep, hsf, ht, halloc, hatt] at hset
              · simp [stepOpt, batchStep, hsf, ht, halloc, hatt] at hset
            · simp [stepOpt, batchStep, hsf, ht, halloc] at hset
          | creatingBrowser d =>
            by_cases hbr : a.browserOk
            · simp [stepOpt, batchStep, hsf, ht, hbr] at hset
            · simp [stepOpt, batchStep, hsf, ht, hbr] at hset
          | booking d =>
            simp [stepOpt, batchStep, hsf, ht] at hset
          | finished =>
            simp [stepOpt, batchStep, hsf, ht] at hset
      | stop =>
        by_cases hstop : s.shouldStop
        · simp [stepOpt, batchStep, hsf, hstop] at hset
        · have hstf : s.shouldStop = false := Bool.of_not_eq_true hstop
          simp [stepOpt, batchStep, hsf, hstf] at hset
      | settle =>
        by_cases hen : allFinished s.tasks && (s.queue.isEmpty || s.shouldStop)
        · simp [stepOpt, batchStep, hsf, hen]
        · simp [stepOpt, batchStep, hsf, hen] at hset

/-- Claim C10 (frame effect): when runAllAccounts settles by any exit
path, its finally block unconditionally clears the entire global
activeDisplays set — the settle transition maps every global in-use set
to the empty set, so any display held by a concurrently running schedule
(present in the initial global set of this batch, or allocated at any
point) is marked free by a batch that does not own it. -/
theorem claim_C10_cleanup_clears_global_displays :
    (∀ (s s' : BatchState), batchStep s Choice.settle = some s' →
      s'.activeDisplays = []) ∧
    (∀ (accounts : List AccountSpec) (initialActive : List String)
        (cs : List Choice),
      (runSteps (initBatch accounts initialActive) cs).settled = true →
      (runSteps (initBatch accounts initialActive) cs).activeDisplays = [] ∧
      ∀ d ∈ initialActive,
        d ∉ (runSteps (initBatch accounts initialActive) cs).activeDisplays) := by
  constructor
  · intro s s' h
    by_cases hs : s.settled
    · rw [batchStep_settled_none s Choice.settle hs] at h
      exact absurd h (by simp)
    · have hsf : s.settled = false := Bool.of_not_eq_true hs
      by_cases hen : allFinished s.tasks && (s.queue.isEmpty || s.shouldStop)
      · simp [batchStep, hsf, hen] at h
        rw [← h]
      · simp [batchStep, hsf, hen] at h
  · intro accounts initialActive cs hset
    have hempty := runSteps_settled_active_empty cs (initBatch accounts initialActive)
      (by intro h; simp [initBatch] at h) hset
    refine ⟨hempty, ?_⟩
    intro d _
    rw [hempty]
    exact List.not_mem_nil d

/-- Witness for C10: a batch over no accounts settling while another
schedule holds display :3 in the global set. -/
theorem claim_C10_witness :
    (runSteps (initBatch [] [":3"]) [Choice.settle]).activeDisplays = [] ∧
    ":3" ∉ (runSteps (initBatch [] [":3"]) [Choice.settle]).activeDisplays :=
  have h := claim_C10_cleanup_clears_global_displays.2 [] [":3"] [Choice.settle] (by decide)
  ⟨h.1, h.2 ":3" (by decide)⟩

/-- Which display a task currently holds (between its successful
allocateDisplay and the releaseDisplay of its finally block). -/
def holdsDisplay : TaskState → String → Prop
  | TaskState.creatingBrowser d', d => d' = d
  | TaskState.booking d', d => d' = d
  | TaskState.waitingDisplay _, _ => False
  | TaskState.finished, _ => False

lemma countAcquired_append_released (events : List PoolEvent) (d0 d : String) :
    countAcquired (events ++ [PoolEvent.released d0]) d = countAcquired events d := by
  simp [countAcquired, List.countP_append, List.countP_cons]

lemma countReleased_append_released (events : List PoolEvent) (d0 d : String) :
    countReleased (events ++ [PoolEvent.released d0]) d =
      countReleased events d + (if d0 = d then 1 else 0) := by
  simp only [countReleased, List.countP_append, List.countP_cons, List.countP_nil]
  by_cases h : d0 = d
  · subst h; simp
  · have : (PoolEvent.released d0 == PoolEvent.released d) = false := by
      simp [h]
    simp [this, h]

lemma countAcquired_append_acquired (events : List PoolEvent) (d0 d : String) :
    countAcquired (events ++ [PoolEvent.acquired d0]) d =
      countAcquired events d + (if d0 = d then 1 else 0) := by
  simp only [countAcquired, List.countP_append, List.countP_cons, List.countP_nil]
  by_cases h : d0 = d
  · subst h; simp
  · have : (PoolEvent.acquired d0 == PoolEvent.acquired d) = false := by
      simp [h]
    simp [this, h]

lemma countReleased_append_acquired (events : List PoolEvent) (d0 d : String) :
    countReleased (events ++ [PoolEvent.acquired d0]) d = countReleased events d := by
  simp [countReleased, List.countP_append, List.countP_cons]

lemma contains_false_not_mem (l : List String) (d : String)
    (h : l.contains d = false) : d ∉ l := by
  intro hmem
  have hc : l.contains d = true := List.elem_iff.mpr hmem
  rw [hc] at h
  simp at h

lemma not_mem_contains_false (l : List String) (d : String)
    (h : d ∉ l) : l.contains d = false := by
  by_contra hc
  exact h (List.elem_iff.mp (Bool.of_not_eq_false hc))

lemma mem_contains_true (l : List String) (d : String)
    (h : d ∈ l) : l.contains d = true := List.elem_iff.mpr h

lemma contains_erase_ne (l : List String) (d d0 : String) (hne : d ≠ d0) :
    (l.erase d0).contains d = l.contains d := by
  by_cases h : d ∈ l
  · rw [mem_contains_true _ _ h, mem_contains_true]
    exact (List.mem_erase_of_ne hne).mpr h
  · rw [not_mem_contains_false _ _ h, not_mem_contains_false]
    intro hmem
    exact h (List.mem_of_mem_erase hmem)

lemma contains_erase_self (l : List String) (d : String) (hnd : l.Nodup) :
    (l.erase d).contains d = false :=
  not_mem_contains_false _ _ (List.Nodup.not_mem_erase hnd)

lemma contains_cons_ne (l : List String) (d d0 : String) (hne : d ≠ d0) :
    (d0 :: l).contains d = l.contains d := by
  by_cases h : d ∈ l
  · rw [mem_contains_true _ _ h, mem_contains_true]
    exact List.mem_cons_of_mem d0 h
  · rw [not_mem_contains_false _ _ h, not_mem_contains_false]
    intro hmem
    rcases List.mem_cons.1 hmem with hmem | hmem
    · exact hne hmem
    · exact h hmem

lemma allocateDisplay_some (active : List String) (d : String) (active' : List String)
    (h : allocateDisplay active = (some d, active')) :
    active.contains d = false ∧ d ∈ displayPool ∧ active' = d :: active := by
  rcases hf : displayPool.find? (fun x => !(active.contains x)) with _ | d0
  · simp only [allocateDisplay, hf] at h
    exact absurd (congrArg Prod.fst h) (by simp)
  · simp only [allocateDisplay, hf] at h
    injection h with h1 h2
    injection h1 with h1
    have hp := List.find?_some hf
    have hmem := List.mem_of_find?_eq_some hf
    rw [h1] at hp hmem h2
    refine ⟨?_, hmem, h2.symm⟩
    cases hcon : active.contains d
    · rfl
    · rw [hcon] at hp
      simp at hp

lemma allocateDisplay_none (active : List String) (active' : List String)
    (h : allocateDisplay active = (none, active')) : active' = active := by
  rcases hf : displayPool.find? (fun x => !(active.contains x)) with _ | d0
  · simp only [allocateDisplay, hf] at h
    exact (congrArg Prod.snd h).symm
  · simp only [allocateDisplay, hf] at h
    exact absurd (congrArg Prod.fst h) (by simp)

/-- Balance of acquire and effective-release events against the in-use
set. -/
def eventBalance (events : List PoolEvent) (active : List String) : Prop :=
  ∀ d, countAcquired events d =
    countReleased events d + (if active.contains d then 1 else 0)

lemma releaseLogged_nodup (active : List String) (events : List PoolEvent)
    (d0 : String) (hnd : active.Nodup) :
    (releaseLogged active events d0).1.Nodup := by
  by_cases h : active.contains d0
  · simp only [releaseLogged, h, if_true]
    exact List.Nodup.erase d0 hnd
  · have hf : active.contains d0 = false := Bool.of_not_eq_true h
    simp only [releaseLogged, hf]
    simpa using hnd

lemma releaseLogged_sub (active : List String) (events : List PoolEvent)
    (d0 : String) :
    ∀ d ∈ (releaseLogged active events d0).1, d ∈ active := by
  intro d hd
  by_cases h : active.contains d0
  · simp only [releaseLogged, h, if_true] at hd
    exact List.mem_of_mem_erase hd
  · have hf : active.contains d0 = false := Bool.of_not_eq_true h
    simp only [releaseLogged, hf] at hd
    simpa using hd

lemma releaseLogged_balance (active : List String) (events : List PoolEvent)
    (d0 : String) (hnd : active.Nodup) (hbal : eventBalance events active) :
    eventBalance (releaseLogged active events d0).2 (releaseLogged active events d0).1 := by
  intro d
  by_cases h : active.contains d0
  · simp only [releaseLogged, h, if_true]
    rw [countAcquired_append_released, countReleased_append_released]
    by_cases hd : d0 = d
    · subst hd
      rw [contains_erase_self active d0 hnd, if_pos rfl]
      simp only [Bool.false_eq_true, if_false, Nat.add_zero]
      have hb := hbal d0
      rw [h, if_pos rfl] at hb
      exact hb
    · rw [if_neg hd, contains_erase_ne active d d0 (fun hx => hd hx.symm), Nat.add_zero]
      exact hbal d
  · have hf : active.contains d0 = false := Bool.of_not_eq_true h
    simp only [releaseLogged, hf, Bool.false_eq_true, if_false]
    exact hbal d

lemma releaseAll_nodup_sub_balance :
    ∀ (bs : List (Nat × String)) (active : List String) (events : List PoolEvent),
      active.Nodup → eventBalance events active →
      (releaseAll active events bs).1.Nodup ∧
      (∀ d ∈ (releaseAll active events bs).1, d ∈ active) ∧
      eventBalance (releaseAll active events bs).2 (releaseAll active events bs).1 := by
  intro bs
  induction bs with
  | nil =>
    intro active events hnd hbal
    exact ⟨hnd, fun d hd => hd, hbal⟩
  | cons b rest ih =>
    intro active events hnd hbal
    simp only [releaseAll]
    have h1 := releaseLogged_nodup active events b.2 hnd
    have h2 := releaseLogged_sub active events b.2
    have h3 := releaseLogged_balance active events b.2 hnd hbal
    obtain ⟨g1, g2, g3⟩ := ih (releaseLogged active events b.2).1
      (releaseLogged active events b.2).2 h1 h3
    exact ⟨g1, fun d hd => h2 d (g2 d hd), g3⟩

lemma countP_set_tasks (q : AccountSpec × TaskState → Bool) :
    ∀ (l : List (AccountSpec × TaskState)) (i : Nat)
      (p x : AccountSpec × TaskState),
      l[i]? = some p →
      (l.set i x).countP q + (if q p then 1 else 0) =
        l.countP q + (if q x then 1 else 0) := by
  intro l
  induction l with
  | nil => intro i p x h; simp at h
  | cons a t ih =>
    intro i p x h
    cases i with
    | zero =>
      simp only [List.getElem?_cons_zero, Option.some.injEq] at h
      subst h
      simp only [List.set_cons_zero, List.countP_cons]
      omega
    | succ i =>
      simp only [List.getElem?_cons_succ] at h
      simp only [List.set_cons_succ, List.countP_cons]
      have := ih i p x h
      omega

lemma map_fst_set_tasks :
    ∀ (l : List (AccountSpec × TaskState)) (i : Nat)
      (a : AccountSpec) (ts ts' : TaskState),
      l[i]? = some (a, ts) →
      (l.set i (a, ts')).map Prod.fst = l.map Prod.fst := by
  intro l
  induction l with
  | nil => intro i a ts ts' h; simp at h
  | cons hd t ih =>
    intro i a ts ts' h
    cases i with
    | zero =>
      simp only [List.getElem?_cons_zero, Option.some.injEq] at h
      subst h
      simp
    | succ i =>
      simp only [List.getElem?_cons_succ] at h
      simp only [List.set_cons_succ, List.map_cons]
      rw [ih i a ts ts' h]

/-- Run-time invariant of one batch over the global display pool state,
relative to the accounts the batch was started with. -/
structure BatchInv (accounts : List AccountSpec) (s : BatchState) : Prop where
  nodupActive : s.activeDisplays.Nodup
  activeSub : ∀ d ∈ s.activeDisplays, d ∈ displayPool
  countersSum : s.counters.processedCount =
    s.counters.successCount + s.counters.errorCount
  processedEq : s.counters.processedCount = finishedCount s.tasks
  admitted : s.tasks.map Prod.fst ++ s.queue = accounts
  holders : ∀ d ∈ s.activeDisplays,
    ∃ (i : Nat) (p : AccountSpec × TaskState), s.tasks[i]? = some p ∧ holdsDisplay p.2 d
  balance : eventBalance s.events s.activeDisplays
  settledFin : s.settled = true → allFinished s.tasks = true
  settledQueue : s.settled = true → s.queue = [] ∨ s.shouldStop = true

lemma stepOpt_eq_of_none (s : BatchState) (c : Choice)
    (h : batchStep s c = none) : stepOpt s c = s := by
  simp [stepOpt, h]

lemma stepOpt_eq_of_some (s : BatchState) (c : Choice) (s' : BatchState)
    (h : batchStep s c = some s') : stepOpt s c = s' := by
  simp [stepOpt, h]

lemma holders_transfer (T : List (AccountSpec × TaskState)) (i : Nat)
    (a : AccountSpec) (tsOld tsNew : TaskState)
    (hT : T[i]? = some (a, tsOld)) (active : List String)
    (hold : ∀ d ∈ active, ∃ (j : Nat) (p : AccountSpec × TaskState), T[j]? = some p ∧ holdsDisplay p.2 d)
    (hpres : ∀ d, holdsDisplay tsOld d → holdsDisplay tsNew d) :
    ∀ d ∈ active, ∃ (j : Nat) (p : AccountSpec × TaskState), (T.set i (a, tsNew))[j]? = some p ∧ holdsDisplay p.2 d := by
  intro d hd
  obtain ⟨j, p, hj, hp⟩ := hold d hd
  by_cases hij : i = j
  · subst hij
    rw [hT] at hj
    injection hj with hj
    subst hj
    have hlen : i < T.length := by
      rw [List.getElem?_eq_some] at hT
      exact hT.1
    refine ⟨i, (a, tsNew), ?_, hpres d hp⟩
    exact List.getElem?_set_self (by simpa using hlen)
  · refine ⟨j, p, ?_, hp⟩
    rw [List.getElem?_set_ne hij]
    exact hj

lemma holders_transfer_release (T : List (AccountSpec × TaskState)) (i : Nat)
    (a : AccountSpec) (tsOld : TaskState)
    (hT : T[i]? = some (a, tsOld)) (active : List String) (d0 : String)
    (hold : ∀ d ∈ active, ∃ (j : Nat) (p : AccountSpec × TaskState), T[j]? = some p ∧ holdsDisplay p.2 d)
    (hOld : ∀ d, holdsDisplay tsOld d → d = d0) :
    ∀ d ∈ active, d ≠ d0 →
      ∃ (j : Nat) (p : AccountSpec × TaskState), (T.set i (a, TaskState.finished))[j]? = some p ∧ holdsDisplay p.2 d := by
  intro d hd hne
  obtain ⟨j, p, hj, hp⟩ := hold d hd
  by_cases hij : i = j
  · subst hij
    rw [hT] at hj
    injection hj with hj
    subst hj
    exact absurd (hOld d hp) hne
  · refine ⟨j, p, ?_, hp⟩
    rw [List.getElem?_set_ne hij]
    exact hj

lemma mem_releaseLogged (active : List String) (events : List PoolEvent)
    (d0 d : String) (hnd : active.Nodup)
    (hd : d ∈ (releaseLogged active events d0).1) : d ∈ active ∧ d ≠ d0 := by
  by_cases h : active.contains d0
  · simp only [releaseLogged, h, if_true] at hd
    exact ⟨List.mem_of_mem_erase hd, ((List.Nodup.mem_erase_iff hnd).1 hd).1⟩
  · have hf : active.contains d0 = false := Bool.of_not_eq_true h
    simp only [releaseLogged, hf, Bool.false_eq_true, if_false] at hd
    refine ⟨hd, fun he => ?_⟩
    subst he
    rw [mem_contains_true active d hd] at hf
    simp at hf

lemma balance_acquire (active : List String) (events : List PoolEvent)
    (d0 : String) (hcon : active.contains d0 = false)
    (hbal : eventBalance events active) :
    eventBalance (events ++ [PoolEvent.acquired d0]) (d0 :: active) := by
  intro d
  rw [countAcquired_append_acquired, countReleased_append_acquired]
  by_cases hd : d0 = d
  · subst hd
    rw [if_pos rfl]
    have hb := hbal d0
    rw [hcon] at hb
    simp only [Bool.false_eq_true, if_false, Nat.add_zero] at hb
    have hc : (d0 :: active).contains d0 = true :=
      mem_contains_true _ _ (List.mem_cons_self d0 active)
    rw [hc, if_pos rfl]
    omega
  · rw [if_neg hd, Nat.add_zero, contains_cons_ne active d d0 (fun he => hd he.symm)]
    exact hbal d

lemma inv_init (accounts : List AccountSpec) :
    BatchInv accounts (initBatch accounts []) := by
  refine ⟨?_, ?_, ?_, ?_, ?_, ?_, ?_, ?_, ?_⟩
  · simp [initBatch]
  · simp [initBatch]
  · simp [initBatch]
  · simp [initBatch, finishedCount]
  · simp [initBatch]
  · simp [initBatch]
  · intro d
    simp [initBatch, countAcquired, countReleased]
  · simp [initBatch]
  · simp [initBatch]

lemma inv_dequeue (accounts : List AccountSpec) (s : BatchState)
    (hinv : BatchInv accounts s) : BatchInv accounts (stepOpt s Choice.dequeue) := by
  by_cases hs : s.settled
  · rw [stepOpt_eq_of_none s _ (batchStep_settled_none s _ hs)]
    exact hinv
  · have hsf : s.settled = false := Bool.of_not_eq_true hs
    by_cases hstop : s.shouldStop
    · rw [stepOpt_eq_of_none s _ (by simp [batchStep, hsf, hstop])]
      exact hinv
    · have hstf : s.shouldStop = false := Bool.of_not_eq_true hstop
      rcases hq : s.queue with _ | ⟨a, rest⟩
      · rw [stepOpt_eq_of_none s _ (by simp [batchStep, hsf, hstf, hq])]
        exact hinv
      · by_cases hcap : unfinishedCount s.tasks < s.maxConcurrent
        · simp only [stepOpt, batchStep, hsf, hstf, hq, hcap, Bool.false_eq_true,
            if_false, if_true, Option.getD_some]
          refine ⟨hinv.nodupActive, hinv.activeSub, hinv.countersSum, ?_, ?_, ?_,
            hinv.balance, ?_, ?_⟩
          · rw [hinv.processedEq]
            simp [finishedCount, List.countP_append]
          · have ha := hinv.admitted
            rw [hq] at ha
            simpa using ha
          · intro d hd
            obtain ⟨j, p, hj, hp⟩ := hinv.holders d hd
            have hjl : j < s.tasks.length := by
              rw [List.getElem?_eq_some] at hj
              exact hj.1
            refine ⟨j, p, ?_, hp⟩
            rw [List.getElem?_append_left hjl]
            exact hj
          · intro h
            simp at h
          · intro h
            simp at h
        · rw [stepOpt_eq_of_none s _ (by simp [batchStep, hsf, hstf, hq, hcap])]
          exact hinv

lemma inv_stop (accounts : List AccountSpec) (s : BatchState)
    (hinv : BatchInv accounts s) : BatchInv accounts (stepOpt s Choice.stop) := by
  by_cases hs : s.settled
  · rw [stepOpt_eq_of_none s _ (batchStep_settled_none s _ hs)]
    exact hinv
  · have hsf : s.settled = false := Bool.of_not_eq_true hs
    by_cases hstop : s.shouldStop
    · rw [stepOpt_eq_of_none s _ (by simp [batchStep, hsf, hstop])]
      exact hinv
    · have hstf : s.shouldStop = false := Bool.of_not_eq_true hstop
      simp only [stepOpt, batchStep, hsf, hstf, Bool.false_eq_true, if_false,
        Option.getD_some]
      obtain ⟨g1, g2, g3⟩ := releaseAll_nodup_sub_balance s.browsers s.activeDisplays
        s.events hinv.nodupActive hinv.balance
      refine ⟨g1, fun d hd => hinv.activeSub d (g2 d hd), hinv.countersSum,
        hinv.processedEq, hinv.admitted,
        fun d hd => hinv.holders d (g2 d hd), g3, ?_, ?_⟩
      · intro h
        simp at h
      · intro h
        simp at h

lemma bump_processed (c : Counters) (b : Bool) :
    (bumpCounters c b).processedCount = c.processedCount + 1 := by
  cases b <;> simp [bumpCounters]

lemma bump_sum (c : Counters) (b : Bool)
    (h : c.processedCount = c.successCount + c.errorCount) :
    (bumpCounters c b).processedCount =
      (bumpCounters c b).successCount + (bumpCounters c b).errorCount := by
  cases b <;> simp [bumpCounters] <;> omega

lemma finishedCount_set_unchanged (T : List (AccountSpec × TaskState)) (i : Nat)
    (a : AccountSpec) (tsOld tsNew : TaskState) (hT : T[i]? = some (a, tsOld))
    (hOld : (tsOld == TaskState.finished) = false)
    (hNew : (tsNew == TaskState.finished) = false) :
    finishedCount (T.set i (a, tsNew)) = finishedCount T := by
  have hc := countP_set_tasks (fun t => t.2 == TaskState.finished) T i
    (a, tsOld) (a, tsNew) hT
  simp only [hOld, hNew, Bool.false_eq_true, if_false, Nat.add_zero] at hc
  exact hc

lemma finishedCount_set_inc (T : List (AccountSpec × TaskState)) (i : Nat)
    (a : AccountSpec) (tsOld : TaskState) (hT : T[i]? = some (a, tsOld))
    (hOld : (tsOld == TaskState.finished) = false) :
    finishedCount (T.set i (a, TaskState.finished)) = finishedCount T + 1 := by
  have hc := countP_set_tasks (fun t => t.2 == TaskState.finished) T i
    (a, tsOld) (a, TaskState.finished) hT
  simp only [hOld, Bool.false_eq_true, if_false, Nat.add_zero] at hc
  simp only [beq_self_eq_true, if_true] at hc
  unfold finishedCount
  omega

lemma inv_settle (accounts : List AccountSpec) (s : BatchState)
    (hinv : BatchInv accounts s) : BatchInv accounts (stepOpt s Choice.settle) := by
  by_cases hs : s.settled
  · rw [stepOpt_eq_of_none s _ (batchStep_settled_none s _ hs)]
    exact hinv
  · have hsf : s.settled = false := Bool.of_not_eq_true hs
    by_cases hen : allFinished s.tasks && (s.queue.isEmpty || s.shouldStop)
    · have hen2 := hen
      rw [Bool.and_eq_true] at hen2
      obtain ⟨hfin, hq⟩ := hen2
      have hempty : s.activeDisplays = [] := by
        rw [List.eq_nil_iff_forall_not_mem]
        intro d hd
        obtain ⟨j, p, hj, hp⟩ := hinv.holders d hd
        have hpmem : p ∈ s.tasks := List.getElem?_mem hj
        have hb := List.all_eq_true.1 hfin p hpmem
        have hfin2 : p.2 = TaskState.finished := by simpa using hb
        rw [hfin2] at hp
        exact hp
      simp only [stepOpt, batchStep, hsf, hen, Bool.false_eq_true, if_false,
        if_true, Option.getD_some]
      refine ⟨by simp, by simp, hinv.countersSum, hinv.processedEq,
        hinv.admitted, by simp, ?_, fun _ => hfin, fun _ => ?_⟩
      · have hb := hinv.balance
        rw [hempty] at hb
        exact hb
      · rw [Bool.or_eq_true] at hq
        rcases hq with h | h
        · exact Or.inl (List.isEmpty_iff.1 h)
        · exact Or.inr h
    · have hstep : batchStep s Choice.settle = none := by
        simp only [batchStep, hsf, Bool.false_eq_true, if_false]
        rw [if_neg hen]
      rw [stepOpt_eq_of_none s _ hstep]
      exact hinv

lemma settledFin_of_false (s2 : BatchState) (h : s2.settled = false) :
    s2.settled = true → allFinished s2.tasks = true := by
  intro h2
  rw [h] at h2
  exact absurd h2 (by simp)

lemma settledQueue_of_false (s2 : BatchState) (h : s2.settled = false) :
    s2.settled = true → s2.queue = [] ∨ s2.shouldStop = true := by
  intro h2
  rw [h] at h2
  exact absurd h2 (by simp)

lemma inv_taskStep (accounts : List AccountSpec) (s : BatchState) (i : Nat)
    (hinv : BatchInv accounts s) : BatchInv accounts (stepOpt s (Choice.taskStep i)) := by
  by_cases hs : s.settled
  · rw [stepOpt_eq_of_none s _ (batchStep_settled_none s _ hs)]
    exact hinv
  · have hsf : s.settled = false := Bool.of_not_eq_true hs
    rcases ht : s.tasks[i]? with _ | ⟨a, ts⟩
    · rw [stepOpt_eq_of_none s _ (by simp [batchStep, hsf, ht])]
      exact hinv
    · cases ts with
      | waitingDisplay attempt =>
        rcases halloc : allocateDisplay s.activeDisplays with ⟨od, active'⟩
        rcases od with _ | d0
        · by_cases hatt : attempt + 1 < maxDisplayRetries
          · simp only [stepOpt, batchStep, hsf, ht, halloc, hatt, Bool.false_eq_true,
              if_false, if_true, Option.getD_some]
            refine ⟨hinv.nodupActive, hinv.activeSub, hinv.countersSum, ?_, ?_, ?_,
              hinv.balance, settledFin_of_false _ rfl, settledQueue_of_false _ rfl⟩
            · rw [hinv.processedEq,
                finishedCount_set_unchanged s.tasks i a _
                  (TaskState.waitingDisplay (attempt + 1)) ht rfl rfl]
            · rw [map_fst_set_tasks s.tasks i a _ _ ht]
              exact hinv.admitted
            · exact holders_transfer s.tasks i a _ _ ht s.activeDisplays
                hinv.holders (fun d h => h.elim)
          · simp only [stepOpt, batchStep, hsf, ht, halloc, hatt, Bool.false_eq_true,
              if_false, if_true, Option.getD_some]
            refine ⟨hinv.nodupActive, hinv.activeSub, ?_, ?_, ?_,
              ?_, hinv.balance, settledFin_of_false _ rfl, settledQueue_of_false _ rfl⟩
            · exact bump_sum s.counters false hinv.countersSum
            · rw [bump_processed, hinv.processedEq,
                finishedCount_set_inc s.tasks i a _ ht rfl]
            · rw [map_fst_set_tasks s.tasks i a _ _ ht]
              exact hinv.admitted
            · exact holders_transfer s.tasks i a _ _ ht s.activeDisplays
                hinv.holders (fun d h => h.elim)
        · obtain ⟨hcon, hd0pool, hact⟩ := allocateDisplay_some _ _ _ halloc
          simp only [stepOpt, batchStep, hsf, ht, halloc, Bool.false_eq_true,
            if_false, if_true, Option.getD_some]
          subst hact
          refine ⟨?_, ?_, hinv.countersSum, ?_, ?_, ?_, ?_,
            settledFin_of_false _ rfl, settledQueue_of_false _ rfl⟩
          · exact List.nodup_cons.mpr
              ⟨contains_false_not_mem _ _ hcon, hinv.nodupActive⟩
          · intro d hd
            rcases List.mem_cons.1 hd with hd | hd
            · rw [hd]
              exact hd0pool
            · exact hinv.activeSub d hd
          · rw [hinv.processedEq,
              finishedCount_set_unchanged s.tasks i a _
                (TaskState.creatingBrowser d0) ht rfl rfl]
          · rw [map_fst_set_tasks s.tasks i a _ _ ht]
            exact hinv.admitted
          · intro d hd
            rcases List.mem_cons.1 hd with hd | hd
            · subst hd
              have hlen : i < s.tasks.length := by
                rw [List.getElem?_eq_some] at ht
                exact ht.1
              refine ⟨i, (a, TaskState.creatingBrowser d), ?_, rfl⟩
              exact List.getElem?_set_self (by simpa using hlen)
            · exact holders_transfer s.tasks i a _ _ ht s.activeDisplays
                hinv.holders (fun d h => h.elim) d hd
          · exact balance_acquire _ _ _ hcon hinv.balance
      | creatingBrowser d0 =>
        by_cases hbr : a.browserOk
        · simp only [stepOpt, batchStep, hsf, ht, hbr, Bool.false_eq_true,
            if_false, if_true, Option.getD_some]
          refine ⟨hinv.nodupActive, hinv.activeSub, hinv.countersSum, ?_, ?_, ?_,
            hinv.balance, settledFin_of_false _ rfl, settledQueue_of_false _ rfl⟩
          · rw [hinv.processedEq,
              finishedCount_set_unchanged s.tasks i a _
                (TaskState.booking d0) ht rfl rfl]
          · rw [map_fst_set_tasks s.tasks i a _ _ ht]
            exact hinv.admitted
          · exact holders_transfer s.tasks i a _ _ ht s.activeDisplays
              hinv.holders (fun d h => h)
        · have hbrf : a.browserOk = false := Bool.of_not_eq_true hbr
          simp only [stepOpt, batchStep, hsf, ht, hbrf, Bool.false_eq_true,
            if_false, if_true, Option.getD_some]
          refine ⟨releaseLogged_nodup _ _ _ hinv.nodupActive,
            fun d hd => hinv.activeSub d (releaseLogged_sub _ _ _ d hd),
            bump_sum s.counters false hinv.countersSum, ?_, ?_, ?_,
            releaseLogged_balance _ _ _ hinv.nodupActive hinv.balance,
            settledFin_of_false _ rfl, settledQueue_of_false _ rfl⟩
          · rw [bump_processed, hinv.processedEq,
              finishedCount_set_inc s.tasks i a _ ht rfl]
          · rw [map_fst_set_tasks s.tasks i a _ _ ht]
            exact hinv.admitted
          · intro d hd
            obtain ⟨hmem, hne⟩ :=
              mem_releaseLogged s.activeDisplays s.events d0 d hinv.nodupActive hd
            exact holders_transfer_release s.tasks i a _ ht s.activeDisplays d0
              hinv.holders (fun d h => h.symm) d hmem hne
      | booking d0 =>
        simp only [stepOpt, batchStep, hsf, ht, Bool.false_eq_true,
          if_false, if_true, Option.getD_some]
        refine ⟨releaseLogged_nodup _ _ _ hinv.nodupActive,
          fun d hd => hinv.activeSub d (releaseLogged_sub _ _ _ d hd),
          bump_sum s.counters a.bookingOk hinv.countersSum, ?_, ?_, ?_,
          releaseLogged_balance _ _ _ hinv.nodupActive hinv.balance,
          settledFin_of_false _ rfl, settledQueue_of_false _ rfl⟩
        · rw [bump_processed, hinv.processedEq,
            finishedCount_set_inc s.tasks i a _ ht rfl]
        · rw [map_fst_set_tasks s.tasks i a _ _ ht]
          exact hinv.admitted
        · intro d hd
          obtain ⟨hmem, hne⟩ :=
            mem_releaseLogged s.activeDisplays s.events d0 d hinv.nodupActive hd
          exact holders_transfer_release s.tasks i a _ ht s.activeDisplays d0
            hinv.holders (fun d h => h.symm) d hmem hne
      | finished =>
        rw [stepOpt_eq_of_none s _ (by simp [batchStep, hsf, ht])]
        exact hinv

lemma inv_step (accounts : List AccountSpec) (s : BatchState) (c : Choice)
    (hinv : BatchInv accounts s) : BatchInv accounts (stepOpt s c) := by
  cases c with
  | dequeue => exact inv_dequeue accounts s hinv
  | taskStep i => exact inv_taskStep accounts s i hinv
  | stop => exact inv_stop accounts s hinv
  | settle => exact inv_settle accounts s hinv

lemma inv_runSteps (accounts : List AccountSpec) :
    ∀ (cs : List Choice) (s : BatchState), BatchInv accounts s →
      BatchInv accounts (runSteps s cs) := by
  intro cs
  induction cs with
  | nil => intro s h; exact h
  | cons c cs ih =>
    intro s h
    exact ih (stepOpt s c) (inv_step accounts s c h)

lemma inv_run_init (accounts : List AccountSpec) (cs : List Choice) :
    BatchInv accounts (runSteps (initBatch accounts []) cs) :=
  inv_runSteps accounts cs (initBatch accounts []) (inv_init accounts)

lemma allFinished_finishedCount (T : List (AccountSpec × TaskState))
    (h : allFinished T = true) : finishedCount T = T.length := by
  rw [finishedCount, List.countP_eq_length]
  exact List.all_eq_true.1 h

lemma no_stop_shouldStop :
    ∀ (cs : List Choice) (s : BatchState), Choice.stop ∉ cs →
      (runSteps s cs).shouldStop = s.shouldStop := by
  intro cs
  induction cs with
  | nil => intro s _; rfl
  | cons c cs ih =>
    intro s hns
    have hc : c ≠ Choice.stop := fun he => hns (he ▸ List.mem_cons_self c cs)
    have hcs : Choice.stop ∉ cs := fun hm => hns (List.mem_cons_of_mem c hm)
    rw [runSteps, List.foldl_cons, ← runSteps, ih (stepOpt s c) hcs]
    by_cases hs : s.settled
    · rw [stepOpt_eq_of_none s _ (batchStep_settled_none s _ hs)]
    · have hsf : s.settled = false := Bool.of_not_eq_true hs
      cases c with
      | dequeue =>
        by_cases hstop : s.shouldStop
        · rw [stepOpt_eq_of_none s _ (by simp [batchStep, hsf, hstop])]
        · have hstf : s.shouldStop = false := Bool.of_not_eq_true hstop
          rcases hq : s.queue with _ | ⟨a, rest⟩
          · rw [stepOpt_eq_of_none s _ (by simp [batchStep, hsf, hstf, hq])]
          · by_cases hcap : unfinishedCount s.tasks < s.maxConcurrent
            · simp only [stepOpt, batchStep, hsf, hstf, hq, hcap, Bool.false_eq_true,
                if_false, if_true, Option.getD_some]
            · rw [stepOpt_eq_of_none s _ (by simp [batchStep, hsf, hstf, hq, hcap])]
      | taskStep i =>
        rcases ht : s.tasks[i]? with _ | ⟨a, ts⟩
        · rw [stepOpt_eq_of_none s _ (by simp [batchStep, hsf, ht])]
        · cases ts with
          | waitingDisplay attempt =>
            rcases halloc : allocateDisplay s.activeDisplays with ⟨od, active'⟩
            rcases od with _ | d0
            · by_cases hatt : attempt + 1 < maxDisplayRetries
              · simp only [stepOpt, batchStep, hsf, ht, halloc, hatt,
                  Bool.false_eq_true, if_false, if_true, Option.getD_some]
              · simp only [stepOpt, batchStep, hsf, ht, halloc, hatt,
                  Bool.false_eq_true, if_false, if_true, Option.getD_some]
            · simp only [stepOpt, batchStep, hsf, ht, halloc,
                Bool.false_eq_true, if_false, if_true, Option.getD_some]
          | creatingBrowser d0 =>
            by_cases hbr : a.browserOk
            · simp only [stepOpt, batchStep, hsf, ht, hbr, Bool.false_eq_true,
                if_false, if_true, Option.getD_some]
            · have hbrf : a.browserOk = false := Bool.of_not_eq_true hbr
              simp only [stepOpt, batchStep, hsf, ht, hbrf, Bool.false_eq_true,
                if_false, if_true, Option.getD_some]
          | booking d0 =>
            simp only [stepOpt, batchStep, hsf, ht, Bool.false_eq_true,
              if_false, if_true, Option.getD_some]
          | finished =>
            rw [stepOpt_eq_of_none s _ (by simp [batchStep, hsf, ht])]
      | stop => exact absurd rfl hc
      | settle =>
        by_cases hen : allFinished s.tasks && (s.queue.isEmpty || s.shouldStop)
        · simp only [stepOpt, batchStep, hsf, hen, Bool.false_eq_true,
            if_false, if_true, Option.getD_some]
        · have hstep : batchStep s Choice.settle = none := by
            simp only [batchStep, hsf, Bool.false_eq_true, if_false]
            rw [if_neg hen]
          rw [stepOpt_eq_of_none s _ hstep]

lemma nodup_subset_length_le (l m : List String) (hnd : l.Nodup)
    (hsub : ∀ d ∈ l, d ∈ m) : l.length ≤ m.length := by
  have h1 : l.toFinset.card = l.length := List.toFinset_card_of_nodup hnd
  have h2 : l.toFinset ⊆ m.toFinset := by
    intro x hx
    rw [List.mem_toFinset] at hx ⊢
    exact hsub x hx
  have h3 := Finset.card_le_card h2
  have h4 := m.toFinset_card_le
  omega

lemma settled_active_nil (accounts : List AccountSpec) (s : BatchState)
    (hinv : BatchInv accounts s) (hset : s.settled = true) :
    s.activeDisplays = [] := by
  have hfin := hinv.settledFin hset
  rw [List.eq_nil_iff_forall_not_mem]
  intro d hd
  obtain ⟨j, p, hj, hp⟩ := hinv.holders d hd
  have hpmem : p ∈ s.tasks := List.getElem?_mem hj
  have hb := List.all_eq_true.1 hfin p hpmem
  have hfin2 : p.2 = TaskState.finished := by simpa using hb
  rw [hfin2] at hp
  exact hp

/-- Claim C2: over any batch run on the fixed pool of 10 displays, the
find-free-and-mark-used step of allocateDisplay is one state transition
that only ever hands out a display that is currently free and in the
pool (no double allocation while in use); at every reachable instant the
in-use set is a duplicate-free subset of the pool, hence at most 10
displays are in use simultaneously; and by the time the batch settles,
every allocateDisplay call that returned a display is matched by exactly
one effective release of that display (acquire and release event counts
agree for every display). -/
theorem claim_C2_slot_conservation :
    (∀ (active : List String) (d : String) (active' : List String),
      allocateDisplay active = (some d, active') →
      active.contains d = false ∧ d ∈ displayPool ∧ active' = d :: active) ∧
    displayPool.length = 10 ∧
    (∀ (accounts : List AccountSpec) (cs : List Choice),
      (runSteps (initBatch accounts []) cs).activeDisplays.Nodup ∧
      (∀ d ∈ (runSteps (initBatch accounts []) cs).activeDisplays, d ∈ displayPool) ∧
      (runSteps (initBatch accounts []) cs).activeDisplays.length ≤ displayPool.length) ∧
    (∀ (accounts : List AccountSpec) (cs : List Choice) (d : String),
      (runSteps (initBatch accounts []) cs).settled = true →
      countAcquired (runSteps (initBatch accounts []) cs).events d =
        countReleased (runSteps (initBatch accounts []) cs).events d) := by
  refine ⟨allocateDisplay_some, by decide, ?_, ?_⟩
  · intro accounts cs
    have hinv := inv_run_init accounts cs
    exact ⟨hinv.nodupActive, hinv.activeSub,
      nodup_subset_length_le _ _ hinv.nodupActive hinv.activeSub⟩
  · intro accounts cs d hset
    have hinv := inv_run_init accounts cs
    have hnil := settled_active_nil accounts _ hinv hset
    have hb := hinv.balance d
    rw [hnil] at hb
    simpa using hb

/-- Witness for C2: a one-account batch that runs to settlement. -/
theorem claim_C2_witness :
    (([] : List String).contains ":1" = false ∧ ":1" ∈ displayPool ∧
      [":1"] = [":1"] ++ ([] : List String)) ∧
    countAcquired (runSteps (initBatch [{ browserOk := true, bookingOk := true }] [])
        [Choice.dequeue, Choice.taskStep 0, Choice.taskStep 0, Choice.taskStep 0,
         Choice.settle]).events ":1" =
      countReleased (runSteps (initBatch [{ browserOk := true, bookingOk := true }] [])
        [Choice.dequeue, Choice.taskStep 0, Choice.taskStep 0, Choice.taskStep 0,
         Choice.settle]).events ":1" :=
  ⟨claim_C2_slot_conservation.1 [] ":1" [":1"] (by decide),
   claim_C2_slot_conservation.2.2.2 [{ browserOk := true, bookingOk := true }]
     [Choice.dequeue, Choice.taskStep 0, Choice.taskStep 0, Choice.taskStep 0,
      Choice.settle] ":1" (by decide)⟩

/-- Claim C3: for a batch over the eligible accounts with no stop request
issued during the run, once the batch settles the aggregate counters
satisfy processedCount = successCount + errorCount = number of accounts:
every account is admitted and its task settles, incrementing
processedCount exactly once together with exactly one of successCount or
errorCount. -/
theorem claim_C3_aggregate_accounting
    (accounts : List AccountSpec) (cs : List Choice)
    (hnostop : Choice.stop ∉ cs)
    (hset : (runSteps (initBatch accounts []) cs).settled = true) :
    (runSteps (initBatch accounts []) cs).counters.processedCount =
      (runSteps (initBatch accounts []) cs).counters.successCount +
        (runSteps (initBatch accounts []) cs).counters.errorCount ∧
    (runSteps (initBatch accounts []) cs).counters.processedCount =
      accounts.length := by
  have hinv := inv_run_init accounts cs
  refine ⟨hinv.countersSum, ?_⟩
  have hfin := hinv.settledFin hset
  have hq := hinv.settledQueue hset
  have hss : (runSteps (initBatch accounts []) cs).shouldStop = false := by
    rw [no_stop_shouldStop cs _ hnostop]
    rfl
  have hqnil : (runSteps (initBatch accounts []) cs).queue = [] := by
    rcases hq with h | h
    · exact h
    · rw [hss] at h
      exact absurd h (by simp)
  have hadm := hinv.admitted
  rw [hqnil, List.append_nil] at hadm
  rw [hinv.processedEq, allFinished_finishedCount _ hfin, ← List.length_map, hadm]

/-- Witness for C3: a two-account batch, one succeeding and one failing,
with no stop. -/
theorem claim_C3_witness :
    (runSteps (initBatch [{ browserOk := true, bookingOk := true },
        { browserOk := true, bookingOk := false }] [])
      [Choice.dequeue, Choice.dequeue, Choice.taskStep 0, Choice.taskStep 1,
       Choice.taskStep 0, Choice.taskStep 0, Choice.taskStep 1, Choice.taskStep 1,
       Choice.settle]).counters.processedCount =
      (runSteps (initBatch [{ browserOk := true, bookingOk := true },
          { browserOk := true, bookingOk := false }] [])
        [Choice.dequeue, Choice.dequeue, Choice.taskStep 0, Choice.taskStep 1,
         Choice.taskStep 0, Choice.taskStep 0, Choice.taskStep 1, Choice.taskStep 1,
         Choice.settle]).counters.successCount +
        (runSteps (initBatch [{ browserOk := true, bookingOk := true },
            { browserOk := true, bookingOk := false }] [])
          [Choice.dequeue, Choice.dequeue, Choice.taskStep 0, Choice.taskStep 1,
           Choice.taskStep 0, Choice.taskStep 0, Choice.taskStep 1, Choice.taskStep 1,
           Choice.settle]).counters.errorCount ∧
    (runSteps (initBatch [{ browserOk := true, bookingOk := true },
        { browserOk := true, bookingOk := false }] [])
      [Choice.dequeue, Choice.dequeue, Choice.taskStep 0, Choice.taskStep 1,
       Choice.taskStep 0, Choice.taskStep 0, Choice.taskStep 1, Choice.taskStep 1,
       Choice.settle]).counters.processedCount = 2 :=
  claim_C3_aggregate_accounting
    [{ browserOk := true, bookingOk := true },
     { browserOk := true, bookingOk := false }]
    [Choice.dequeue, Choice.dequeue, Choice.taskStep 0, Choice.taskStep 1,
     Choice.taskStep 0, Choice.taskStep 0, Choice.taskStep 1, Choice.taskStep 1,
     Choice.settle]
    (by decide) (by decide)

/-- Claim C7: after stopSchedule sets the stop flag, the admission step is
disabled (no not-yet-started account is admitted), while every admitted
in-flight task still runs to completion and is counted: at settlement the
processed count equals the number of tasks started, and the started tasks
are exactly the accounts dequeued before the stop (started ++ remaining
queue = submitted accounts). -/
theorem claim_C7_stop_prevents_admission
    (s : BatchState) (accounts : List AccountSpec) (cs : List Choice)
    (hstop : s.shouldStop = true)
    (hset : (runSteps (initBatch accounts []) cs).settled = true) :
    batchStep s Choice.dequeue = none ∧
    (runSteps (initBatch accounts []) cs).counters.processedCount =
      (runSteps (initBatch accounts []) cs).tasks.length ∧
    (runSteps (initBatch accounts []) cs).tasks.map Prod.fst ++
      (runSteps (initBatch accounts []) cs).queue = accounts := by
  have hinv := inv_run_init accounts cs
  refine ⟨?_, ?_, hinv.admitted⟩
  · by_cases hs : s.settled
    · exact batchStep_settled_none s _ hs
    · have hsf : s.settled = false := Bool.of_not_eq_true hs
      simp [batchStep, hsf, hstop]
  · rw [hinv.processedEq, allFinished_finishedCount _ (hinv.settledFin hset)]

/-- Witness for C7: one of two accounts is started and finishes, then a
stop arrives and the batch settles with the second account never
admitted and exactly the started account counted. -/
theorem claim_C7_witness :
    batchStep (runSteps (initBatch [{ browserOk := true, bookingOk := true },
        { browserOk := true, bookingOk := true }] [])
      [Choice.dequeue, Choice.taskStep 0, Choice.taskStep 0, Choice.taskStep 0,
       Choice.stop]) Choice.dequeue = none ∧
    (runSteps (initBatch [{ browserOk := true, bookingOk := true },
        { browserOk := true, bookingOk := true }] [])
      [Choice.dequeue, Choice.taskStep 0, Choice.taskStep 0, Choice.taskStep 0,
       Choice.stop, Choice.settle]).counters.processedCount =
      (runSteps (initBatch [{ browserOk := true, bookingOk := true },
          { browserOk := true, bookingOk := true }] [])
        [Choice.dequeue, Choice.taskStep 0, Choice.taskStep 0, Choice.taskStep 0,
         Choice.stop, Choice.settle]).tasks.length :=
  have h := claim_C7_stop_prevents_admission
    (runSteps (initBatch [{ browserOk := true, bookingOk := true },
        { browserOk := true, bookingOk := true }] [])
      [Choice.dequeue, Choice.taskStep 0, Choice.taskStep 0, Choice.taskStep 0,
       Choice.stop])
    [{ browserOk := true, bookingOk := true },
     { browserOk := true, bookingOk := true }]
    [Choice.dequeue, Choice.taskStep 0, Choice.taskStep 0, Choice.taskStep 0,
     Choice.stop, Choice.settle]
    (by decide) (by decide)
  ⟨h.1, h.2.1⟩
